import Mathlib

/-!
Verification development for the SignalHire email-enrichment scripts.

The embedding below translates, function by function, the email pattern
inference and verification engine found in
`Hirejoure.com/SouthDetroit/scripts/email_pattern_filler.py`,
`robust_email_filler.py` and `enhanced_email_filler.py`.

Conventions used throughout:
* Python strings are modelled as `String` / `List Char`; the handful of
  regular expressions in the source are unfolded into explicit character
  scanners that implement the same leftmost, non-overlapping match
  semantics on the ASCII fragment the scripts operate on.
* The two remote HTTP providers (the mailbox-verification service and the
  Hunter.io domain-pattern lookup) are modelled by explicit response
  values (`HttpResp`, `HunterResp`) or response oracles `Nat → HttpResp`
  indexed by the running count of requests issued, so that the number of
  external calls is observable in the state.
* Module-level mutable caches become explicit association lists threaded
  through the functions (`RunSt`, pattern-cache parameters).  A Python
  dict assignment is modelled by consing the new binding; `List.lookup`
  returns the newest binding, matching dict lookup after assignment.
-/

namespace EmailEnrich

/-- ASCII whitespace, the cases Python's `str.strip`/`split` see in this data. -/
def isWs (c : Char) : Bool :=
  c == ' ' || c == '\t' || c == '\n' || c == '\r'

/-- Python `str.lower` on the ASCII range (the scripts only feed ASCII names). -/
def asciiLower (c : Char) : Char :=
  if 'A' ≤ c ∧ c ≤ 'Z' then Char.ofNat (c.toNat + 32) else c

/-- Lowercase a character list. -/
def lowerL (l : List Char) : List Char := l.map asciiLower

/-- Lowercase a string (Python `str.lower`, ASCII model). -/
def lowerS (s : String) : String := String.mk (lowerL s.data)

/-- Python `str.strip()` from the left. -/
def trimLeftL (l : List Char) : List Char := l.dropWhile (fun c => isWs c)

/-- Python `str.strip()`: drop whitespace from both ends. -/
def trimL (l : List Char) : List Char :=
  ((l.dropWhile (fun c => isWs c)).reverse.dropWhile (fun c => isWs c)).reverse

/-- Python `str.strip(chars)`: drop characters of `cs` from both ends. -/
def stripSetL (cs : List Char) (l : List Char) : List Char :=
  ((l.dropWhile (fun c => cs.contains c)).reverse.dropWhile (fun c => cs.contains c)).reverse

/-- Python `s.split(sep)[0]`: everything before the first occurrence of `sep`. -/
def takeUntilL (sep : Char) (l : List Char) : List Char :=
  l.takeWhile (fun c => !(c == sep))

/-- Python `str.replace(c, '')`: remove every occurrence of one character. -/
def removeCharL (c : Char) (l : List Char) : List Char :=
  l.filter (fun d => !(d == c))

/-- Helper for `collapseWsL`: `prevWs` records whether the previous kept
character was the space standing for a whitespace run. -/
def collapseWsGo (prevWs : Bool) : List Char → List Char
  | [] => []
  | c :: rest =>
    if isWs c then
      if prevWs then collapseWsGo true rest else ' ' :: collapseWsGo true rest
    else c :: collapseWsGo false rest

/-- Python `re.sub(r'\s+', ' ', s)`: each whitespace run becomes one space. -/
def collapseWsL (l : List Char) : List Char := collapseWsGo false l

/-- Helper for `splitWsL`, accumulating the current word reversed. -/
def splitWsGo : List Char → List Char → List (List Char)
  | cur, [] => if cur.isEmpty then [] else [cur.reverse]
  | cur, c :: rest =>
    if isWs c then
      if cur.isEmpty then splitWsGo [] rest
      else cur.reverse :: splitWsGo [] rest
    else splitWsGo (c :: cur) rest

/-- Python `str.split()` with no argument: split on whitespace runs, no empties. -/
def splitWsL (l : List Char) : List (List Char) := splitWsGo [] l

/-- Python `' '.join(words)`. -/
def joinSpace (ws : List (List Char)) : List Char := List.intercalate [' '] ws

/-- Count occurrences of a character (Python `str.count` for one char). -/
def countCharL (c : Char) (l : List Char) : Nat :=
  (l.filter (fun d => d == c)).length

/-! ## Mailbox verification provider (NeverBounce)

The provider is reachable over HTTP; one request either completes with a
status code and a parsed JSON body whose `result` field we record, times
out, or raises some other exception (connection error, unparseable JSON). -/

/-- Outcome of one HTTP request to the mailbox-verification provider.
`ok status result` is a completed request whose JSON body's `result` field
is `result` (`none` when the field is absent). -/
inductive HttpResp where
  | ok (status : Nat) (result : Option String)
  | timeout
  | exn
deriving Repr, DecidableEq

/-- The deliverability test of `enhanced_email_filler.py` /
`robust_email_filler.py`: `data.get("result", "").lower() in ["valid", "catchall"]`. -/
def deliverableNB (r : Option String) : Bool :=
  let s := lowerS (r.getD "")
  s == "valid" || s == "catchall"

/-- `verify_email_neverbounce` (enhanced_email_filler.py:222-242): a single
request; HTTP 200 with result `valid`/`catchall` is deliverable, every other
status, a missing key or email, and every exception yield `false`. -/
def verify_email_neverbounce (key email : String) (resp : HttpResp) : Bool :=
  if email = "" ∨ key = "" then false
  else
    match resp with
    | .ok status r => if status = 200 then deliverableNB r else false
    | .timeout => false
    | .exn => false

/-- Shared mutable state of a verification run: the module-level
`_verify_cache` / `_verification_cache` dict and the number of provider
requests issued so far (the index into the response oracle). -/
structure RunSt where
  cache : List (String × Bool)
  calls : Nat
deriving Repr, DecidableEq

/-- `verify_email_nvb` (email_pattern_filler.py:343-361).  No key means
"assume valid" without any call.  On a cache hit the cached boolean is
returned.  Otherwise one request is made; its HTTP status is ignored and
`data.get("result") == "valid"` decides the boolean, which is cached.  Any
exception returns `false` WITHOUT writing the cache. -/
def verify_email_nvb (key email : String) (oracle : Nat → HttpResp) (st : RunSt) :
    Bool × RunSt :=
  if key = "" then (true, st)
  else
    match st.cache.lookup email with
    | some b => (b, st)
    | none =>
      match oracle st.calls with
      | .ok _ r =>
        let valid := r == some "valid"
        (valid, ⟨(email, valid) :: st.cache, st.calls + 1⟩)
      | .timeout => (false, { st with calls := st.calls + 1 })
      | .exn => (false, { st with calls := st.calls + 1 })

/-- The retry loop of `verify_email_with_retry` (robust_email_filler.py:140-169),
starting at oracle index `i` with `fuel` attempts left.  Returns the verdict of
the first HTTP 200 response (`none` when every attempt fell through or a
non-timeout exception broke the loop) and the number of requests issued.
A 429 backs off and retries; any other non-200 status and a timeout also fall
through to the next attempt; a non-timeout exception breaks out. -/
def retryAttempts (oracle : Nat → HttpResp) : Nat → Nat → Option Bool × Nat
  | _, 0 => (none, 0)
  | i, fuel + 1 =>
    match oracle i with
    | .ok status r =>
      if status = 200 then (some (deliverableNB r), 1)
      else if status = 429 then
        let rec429 := retryAttempts oracle (i + 1) fuel
        (rec429.1, rec429.2 + 1)
      else
        let recOther := retryAttempts oracle (i + 1) fuel
        (recOther.1, recOther.2 + 1)
    | .timeout =>
      let recTo := retryAttempts oracle (i + 1) fuel
      (recTo.1, recTo.2 + 1)
    | .exn => (none, 1)

/-- `verify_email_with_retry` (robust_email_filler.py:131-173).  Empty email or
missing key yield `false` without touching cache or network.  A cache hit is
returned as-is.  Otherwise up to 3 attempts are made and the outcome — `false`
when no attempt produced an HTTP 200 — is always written to the cache. -/
def verify_email_with_retry (key email : String) (oracle : Nat → HttpResp)
    (st : RunSt) : Bool × RunSt :=
  if email = "" ∨ key = "" then (false, st)
  else
    match st.cache.lookup email with
    | some b => (b, st)
    | none =>
      let out := retryAttempts oracle st.calls 3
      let v := out.1.getD false
      (v, ⟨(email, v) :: st.cache, st.calls + out.2⟩)

/-- Each attempt of the retry loop issues at most one request. -/
theorem retryAttempts_calls_le (oracle : Nat → HttpResp) (i fuel : Nat) :
    (retryAttempts oracle i fuel).2 ≤ fuel := by
  induction fuel generalizing i with
  | zero => simp [retryAttempts]
  | succ n ih =>
    simp only [retryAttempts]
    cases oracle i with
    | ok status r =>
      by_cases h200 : status = 200
      · simp [h200]
      · by_cases h429 : status = 429 <;>
          simp [h200, h429, Nat.add_le_add_iff_right] <;> exact ih (i + 1)
    | timeout => simpa [Nat.add_le_add_iff_right] using ih (i + 1)
    | exn => simp

/-! ## Claims C1, C2, C10: the verification service -/

/-- Claim C1 counterexample: `verify_email_nvb` (email_pattern_filler.py:343-361)
returns false on a provider answer whose `result` is `catchall`, and it returns
true on a non-200 response whose body says `valid`, contradicting the claim
that verification is true exactly on `valid`/`catchall` 200 responses. -/
theorem C1_counterexample :
    (verify_email_nvb "k" "a@b.co" (fun _ => .ok 200 (some "catchall")) ⟨[], 0⟩).1 = false ∧
    (verify_email_nvb "k" "a@b.co" (fun _ => .ok 500 (some "valid")) ⟨[], 0⟩).1 = true := by
  constructor <;> rfl

/-- Claim C1 (amended): `verify_email_neverbounce` returns true exactly when
the request completes with HTTP 200 and a result of `valid` or `catchall`
(case-insensitively); `verify_email_nvb` ignores the HTTP status and returns
true exactly when the parsed `result` field equals `valid` — `catchall`, every
other code, and every exception yield false; neither function raises. -/
theorem C1_amended (key email : String) (resp : HttpResp)
    (hk : key ≠ "") (he : email ≠ "") :
    (verify_email_neverbounce key email resp = true ↔
      ∃ r, resp = .ok 200 r ∧ deliverableNB r = true) ∧
    ((verify_email_nvb key email (fun _ => resp) ⟨[], 0⟩).1 = true ↔
      ∃ s, resp = .ok s (some "valid")) := by
  constructor
  · unfold verify_email_neverbounce
    rw [if_neg (by tauto)]
    cases resp with
    | ok status r =>
      by_cases h200 : status = 200
      · subst h200; simp
      · simp [h200]
    | timeout => simp
    | exn => simp
  · unfold verify_email_nvb
    rw [if_neg hk]
    cases resp with
    | ok status r =>
      simp only [List.lookup]
      constructor
      · intro h
        refine ⟨status, ?_⟩
        have : (r == some "valid") = true := h
        rw [beq_iff_eq] at this
        rw [this]
      · rintro ⟨s, hs⟩
        injection hs with h1 h2
        subst h2
        simp
    | timeout => simp [List.lookup]
    | exn => simp [List.lookup]

/-- Claim C1 witness: the amended theorem applied to a concrete 200/`valid`
response for both embeddings. -/
theorem C1_amended_witness :
    verify_email_neverbounce "k" "a@b.co" (.ok 200 (some "valid")) = true ∧
    (verify_email_nvb "k" "a@b.co" (fun _ => .ok 200 (some "valid")) ⟨[], 0⟩).1 = true := by
  have h := C1_amended "k" "a@b.co" (.ok 200 (some "valid")) (by decide) (by decide)
  exact ⟨h.1.mpr ⟨some "valid", rfl, by decide⟩, h.2.mpr ⟨200, rfl⟩⟩

/-- An oracle whose first response raises and whose later responses answer
HTTP 200 with `valid` — a transiently failing provider. -/
def flakyOracle : Nat → HttpResp :=
  fun n => if n = 0 then .exn else .ok 200 (some "valid")

/-- Claim C2 counterexample: with `verify_email_nvb`, a first verify whose
provider call raises returns false without caching; the second verify for the
same email issues a second provider call and returns true — two external calls
and two different booleans within one run. -/
theorem C2_counterexample :
    (verify_email_nvb "k" "e@x.co" flakyOracle ⟨[], 0⟩).1 = false ∧
    (verify_email_nvb "k" "e@x.co" flakyOracle
      (verify_email_nvb "k" "e@x.co" flakyOracle ⟨[], 0⟩).2).1 = true ∧
    (verify_email_nvb "k" "e@x.co" flakyOracle
      (verify_email_nvb "k" "e@x.co" flakyOracle ⟨[], 0⟩).2).2.calls = 2 := by
  refine ⟨by decide, by decide, by decide⟩

/-- Claim C2 (amended): a cached entry is never overwritten — a verify on a
cached email returns the cached boolean and leaves state untouched in both
variants.  `verify_email_with_retry` always writes the cache on a fresh email
(even on failure), so the second verify returns the same boolean with no
further provider call, and one verify issues at most 3 provider requests.
`verify_email_nvb` caches only when the provider call does not raise; in that
case the repeat verify likewise returns the same boolean with no further call. -/
theorem C2_amended (key email : String) (oracle : Nat → HttpResp) (st : RunSt)
    (hk : key ≠ "") (he : email ≠ "") :
    (∀ b, st.cache.lookup email = some b →
      verify_email_nvb key email oracle st = (b, st) ∧
      verify_email_with_retry key email oracle st = (b, st)) ∧
    (st.cache.lookup email = none →
      ((verify_email_with_retry key email oracle st).2.cache.lookup email =
          some (verify_email_with_retry key email oracle st).1 ∧
        verify_email_with_retry key email oracle
            (verify_email_with_retry key email oracle st).2 =
          ((verify_email_with_retry key email oracle st).1,
           (verify_email_with_retry key email oracle st).2) ∧
        (verify_email_with_retry key email oracle st).2.calls ≤ st.calls + 3) ∧
      (∀ s r, oracle st.calls = .ok s r →
        (verify_email_nvb key email oracle st).2.cache.lookup email =
            some (verify_email_nvb key email oracle st).1 ∧
        verify_email_nvb key email oracle
            (verify_email_nvb key email oracle st).2 =
          ((verify_email_nvb key email oracle st).1,
           (verify_email_nvb key email oracle st).2))) := by
  have hor : ¬(email = "" ∨ key = "") := by tauto
  constructor
  · intro b hb
    constructor
    · unfold verify_email_nvb
      rw [if_neg hk, hb]
    · unfold verify_email_with_retry
      rw [if_neg hor, hb]
  · intro hnone
    constructor
    · have hfst :
          verify_email_with_retry key email oracle st =
            ((retryAttempts oracle st.calls 3).1.getD false,
             ⟨(email, (retryAttempts oracle st.calls 3).1.getD false) :: st.cache,
              st.calls + (retryAttempts oracle st.calls 3).2⟩) := by
        unfold verify_email_with_retry
        rw [if_neg hor, hnone]
      refine ⟨?_, ?_, ?_⟩
      · rw [hfst]; simp [List.lookup]
      · rw [hfst]
        unfold verify_email_with_retry
        rw [if_neg hor]
        simp [List.lookup]
      · rw [hfst]
        exact Nat.add_le_add_left (retryAttempts_calls_le oracle st.calls 3) _
    · intro s r hsr
      have hfst :
          verify_email_nvb key email oracle st =
            ((r == some "valid"),
             ⟨(email, (r == some "valid")) :: st.cache, st.calls + 1⟩) := by
        unfold verify_email_nvb
        rw [if_neg hk, hnone, hsr]
      constructor
      · rw [hfst]; simp [List.lookup]
      · rw [hfst]
        unfold verify_email_nvb
        rw [if_neg hk]
        simp [List.lookup]

/-- Claim C2 witness: the amended theorem at a concrete fresh email with an
always-valid provider: the retry variant caches the result, the repeat call
returns it unchanged, and the call count stays within the retry cap. -/
theorem C2_amended_witness :
    (verify_email_with_retry "k" "e@x.co" (fun _ => .ok 200 (some "valid"))
        ⟨[], 0⟩).2.cache.lookup "e@x.co" =
      some (verify_email_with_retry "k" "e@x.co" (fun _ => .ok 200 (some "valid"))
        ⟨[], 0⟩).1 ∧
    (verify_email_with_retry "k" "e@x.co" (fun _ => .ok 200 (some "valid"))
        ⟨[], 0⟩).2.calls ≤ 3 := by
  have h := (C2_amended "k" "e@x.co" (fun _ => .ok 200 (some "valid")) ⟨[], 0⟩
    (by decide) (by decide)).2 (by simp [List.lookup])
  exact ⟨h.1.1, h.1.2.2⟩

/-- Claim C10 (confirmed): with no provider key configured, `verify_email_nvb`
returns true for every email with no state change (hence no provider call),
while `verify_email_with_retry` returns false, also without any call; the two
embeddings disagree on every input in that configuration. -/
theorem C10_no_key_disagreement (email : String) (oracle : Nat → HttpResp) (st : RunSt) :
    verify_email_nvb "" email oracle st = (true, st) ∧
    verify_email_with_retry "" email oracle st = (false, st) ∧
    (verify_email_nvb "" email oracle st).1 ≠
      (verify_email_with_retry "" email oracle st).1 := by
  refine ⟨?_, ?_, ?_⟩
  · unfold verify_email_nvb; rw [if_pos rfl]
  · unfold verify_email_with_retry; rw [if_pos (Or.inr rfl)]
  · unfold verify_email_nvb verify_email_with_retry
    rw [if_pos rfl, if_pos (Or.inr rfl)]
    simp

/-! ## DomainResolver: `clean_domain` inside `infer_domains`
(email_pattern_filler.py:413-423) -/

/-- The class `[a-z]` of the validity pattern. -/
def isLowerAlpha (c : Char) : Bool := decide ('a' ≤ c ∧ c ≤ 'z')

/-- The class `[0-9]`. -/
def isDigitC (c : Char) : Bool := decide ('0' ≤ c ∧ c ≤ '9')

/-- The character class `[a-z0-9.-]` of the domain validity pattern. -/
def isDomChar (c : Char) : Bool :=
  isLowerAlpha c || isDigitC c || c == '.' || c == '-'

/-- Scanner for `re.sub(r"https?://", "", val)`: remove every (leftmost,
non-overlapping) occurrence of `https://` or `http://`.  The `IGNORECASE`
flag is moot because the input was lowercased first. -/
def removeSchemesGo : Nat → List Char → List Char
  | 0, l => l
  | _ + 1, [] => []
  | fuel + 1, c :: rest =>
    if (c :: rest).take 8 = "https://".data then removeSchemesGo fuel ((c :: rest).drop 8)
    else if (c :: rest).take 7 = "http://".data then removeSchemesGo fuel ((c :: rest).drop 7)
    else c :: removeSchemesGo fuel rest

/-- Remove every occurrence of `https://` / `http://`. -/
def removeSchemesL (l : List Char) : List Char := removeSchemesGo l.length l

/-- Does the list start with `www.`? -/
def hasWwwDot (l : List Char) : Bool := l.take 4 == "www.".data

/-- `re.sub(r"^www\.\s*", "", val)`: strip ONE leading `www.` (plus following
whitespace); the pattern is anchored, so a second `www.` survives. -/
def stripWwwL (l : List Char) : List Char :=
  if hasWwwDot l then (l.drop 4).dropWhile (fun c => isWs c) else l

/-- `re.match(r"^[a-z0-9.-]+\.[a-z]{2,}$", val)`: every character in the class,
a dot exists, the segment after the last dot is a purely alphabetic TLD of
length ≥ 2, and the prefix before that dot is non-empty.  (Backtracking makes
the last dot the only possible split: any earlier dot leaves a later dot
inside the `[a-z]{2,}` tail.) -/
def domainReL (l : List Char) : Bool :=
  let tld := (l.reverse.takeWhile (fun c => !(c == '.'))).reverse
  l.all isDomChar && l.contains '.' && decide (2 ≤ tld.length) &&
    decide (tld.length + 2 ≤ l.length) && tld.all isLowerAlpha

/-- The sanitization pipeline of `clean_domain`:
`strip().lower()`, scheme removal, one `www.` strip, `split('/')[0].strip()`,
`strip('. ')`, `replace(' ', '')`. -/
def sanitizeDomain (s : String) : List Char :=
  removeCharL ' ' (stripSetL ['.', ' ']
    (trimL (takeUntilL '/' (stripWwwL (removeSchemesL (lowerL (trimL s.data)))))))

/-- `clean_domain` (email_pattern_filler.py:413-423): sanitize, then reject
as implausible when longer than 40 characters, with more than 3 dots, or not
matching the validity pattern. -/
def clean_domain (s : String) : String :=
  let v := sanitizeDomain s
  if 40 < v.length ∨ 3 < countCharL '.' v ∨ ¬ domainReL v then ""
  else String.mk v

/-! ### List lemmas for the idempotence analysis -/

/-- The head surviving a `dropWhile` fails the predicate. -/
theorem dropWhile_head_false {p : Char → Bool} {l : List Char} {c : Char}
    (h : (l.dropWhile p).head? = some c) : p c = false := by
  induction l with
  | nil => simp [List.dropWhile] at h
  | cons a t ih =>
    rw [List.dropWhile_cons] at h
    by_cases hp : p a = true
    · exact ih (by simpa [hp] using h)
    · simp [hp] at h
      rw [← h]
      simpa using hp

/-- `dropWhile` is the identity when the head already fails the predicate. -/
theorem dropWhile_eq_self_of_head {p : Char → Bool} {l : List Char}
    (h : ∀ c, l.head? = some c → p c = false) : l.dropWhile p = l := by
  cases l with
  | nil => rfl
  | cons a t =>
    have ha := h a rfl
    rw [List.dropWhile_cons, if_neg (by simp [ha])]

/-- `dropWhile` keeps a suffix of its input. -/
theorem dropWhile_eq_append {p : Char → Bool} (l : List Char) :
    ∃ t, t ++ l.dropWhile p = l := by
  induction l with
  | nil => exact ⟨[], rfl⟩
  | cons a t ih =>
    rw [List.dropWhile_cons]
    by_cases hp : p a = true
    · obtain ⟨u, hu⟩ := ih
      exact ⟨a :: u, by simp [hp, hu]⟩
    · exact ⟨[], by simp [hp]⟩

/-- A head comes from membership. -/
theorem mem_of_headOpt {l : List Char} {c : Char} (h : l.head? = some c) : c ∈ l := by
  cases l with
  | nil => simp at h
  | cons a t =>
    simp at h
    rw [← h]
    exact List.mem_cons_self a t

/-- Heads prepend through an append. -/
theorem headOpt_append_left {l l' : List Char} {c : Char} (h : l.head? = some c) :
    (l ++ l').head? = some c := by
  cases l with
  | nil => simp at h
  | cons a t => simpa using h

/-- The first character after `strip(chars)` is not one of the stripped ones. -/
theorem stripSetL_head {cs l : List Char} {c : Char}
    (h : (stripSetL cs l).head? = some c) : cs.contains c = false := by
  unfold stripSetL at h
  obtain ⟨t, ht⟩ :=
    dropWhile_eq_append (p := fun x => cs.contains x)
      (l.dropWhile (fun x => cs.contains x)).reverse
  have hd1eq :
      ((l.dropWhile (fun x => cs.contains x)).reverse.dropWhile
          (fun x => cs.contains x)).reverse ++ t.reverse =
        l.dropWhile (fun x => cs.contains x) := by
    have h2 := congrArg List.reverse ht
    simpa using h2
  have hh : (l.dropWhile (fun x => cs.contains x)).head? = some c := by
    rw [← hd1eq]
    exact headOpt_append_left h
  exact dropWhile_head_false hh

/-- The last character after `strip(chars)` is not one of the stripped ones. -/
theorem stripSetL_getLast {cs l : List Char} {c : Char}
    (h : (stripSetL cs l).getLast? = some c) : cs.contains c = false := by
  unfold stripSetL at h
  rw [List.getLast?_reverse] at h
  exact dropWhile_head_false h

/-- `strip(chars)` is the identity when neither end is a stripped character. -/
theorem stripSetL_eq_self {cs l : List Char}
    (hh : ∀ c, l.head? = some c → cs.contains c = false)
    (hl : ∀ c, l.getLast? = some c → cs.contains c = false) :
    stripSetL cs l = l := by
  unfold stripSetL
  rw [dropWhile_eq_self_of_head hh,
    dropWhile_eq_self_of_head (fun c hc => hl c (by rwa [List.head?_reverse] at hc))]
  exact List.reverse_reverse l

/-- `filter` preserves a head that satisfies the predicate. -/
theorem filter_headOpt {q : Char → Bool} {l : List Char} {c : Char}
    (h : l.head? = some c) (hq : q c = true) : (l.filter q).head? = some c := by
  cases l with
  | nil => simp at h
  | cons a t =>
    simp at h
    rw [← h] at hq ⊢
    simp [List.filter_cons, hq]

/-- `filter` preserves a last element that satisfies the predicate. -/
theorem filter_getLastOpt {q : Char → Bool} {l : List Char} {c : Char}
    (h : l.getLast? = some c) (hq : q c = true) : (l.filter q).getLast? = some c := by
  rw [← List.head?_reverse] at h ⊢
  rw [← List.filter_reverse]
  exact filter_headOpt h hq

/-- `trim` is the identity on whitespace-free lists. -/
theorem trimL_eq_self {l : List Char} (h : ∀ c ∈ l, isWs c = false) : trimL l = l := by
  unfold trimL
  rw [dropWhile_eq_self_of_head (fun c hc => h c (mem_of_headOpt hc)),
    dropWhile_eq_self_of_head
      (fun c hc => h c (List.mem_reverse.mp (mem_of_headOpt hc)))]
  exact List.reverse_reverse l

/-- A map fixing every element is the identity. -/
theorem map_id_of {f : Char → Char} {l : List Char} (h : ∀ c ∈ l, f c = c) :
    l.map f = l := by
  induction l with
  | nil => rfl
  | cons a t ih =>
    simp only [List.map_cons, h a (by simp), List.cons.injEq, true_and]
    exact ih (fun c hc => h c (by simp [hc]))

/-- `takeWhile` is the identity when every element satisfies the predicate. -/
theorem takeWhile_eq_self_of_all {p : Char → Bool} {l : List Char}
    (h : ∀ c ∈ l, p c = true) : l.takeWhile p = l := by
  induction l with
  | nil => rfl
  | cons a t ih =>
    rw [List.takeWhile_cons, if_pos (h a (by simp))]
    rw [ih (fun c hc => h c (by simp [hc]))]

/-- The scheme scanner is the identity on slash-free lists. -/
theorem removeSchemesGo_eq_self (fuel : Nat) {l : List Char} (h : '/' ∉ l) :
    removeSchemesGo fuel l = l := by
  induction fuel generalizing l with
  | zero => rfl
  | succ n ih =>
    cases l with
    | nil => rfl
    | cons a t =>
      have h8 : ¬((a :: t).take 8 = "https://".data) := by
        intro he
        exact h (List.take_subset 8 (a :: t) (by rw [he]; decide))
      have h7 : ¬((a :: t).take 7 = "http://".data) := by
        intro he
        exact h (List.take_subset 7 (a :: t) (by rw [he]; decide))
      simp only [removeSchemesGo, if_neg h8, if_neg h7, List.cons.injEq, true_and]
      exact ih (fun hm => h (List.mem_cons_of_mem a hm))

/-- An accepted domain character is neither uppercase, whitespace, a slash,
nor a space, and `asciiLower` fixes it. -/
theorem isDomChar_facts {c : Char} (h : isDomChar c = true) :
    isWs c = false ∧ asciiLower c = c ∧ c ≠ '/' ∧ c ≠ ' ' := by
  unfold isDomChar isLowerAlpha isDigitC at h
  rcases Bool.or_eq_true_iff.mp h with h1 | hdash
  rotate_left
  · have hc : c = '-' := eq_of_beq hdash
    subst hc
    exact ⟨by decide, by decide, by decide, by decide⟩
  rcases Bool.or_eq_true_iff.mp h1 with h2 | hdot
  rotate_left
  · have hc : c = '.' := eq_of_beq hdot
    subst hc
    exact ⟨by decide, by decide, by decide, by decide⟩
  rcases Bool.or_eq_true_iff.mp h2 with hlow | hdig
  · have hc := of_decide_eq_true hlow
    have hsp : c ≠ ' ' := by intro he; subst he; exact absurd hc (by decide)
    have hta : c ≠ '\t' := by intro he; subst he; exact absurd hc (by decide)
    have hnl : c ≠ '\n' := by intro he; subst he; exact absurd hc (by decide)
    have hcr : c ≠ '\r' := by intro he; subst he; exact absurd hc (by decide)
    have hsl : c ≠ '/' := by intro he; subst he; exact absurd hc (by decide)
    refine ⟨by simp [isWs, hsp, hta, hnl, hcr], ?_, hsl, hsp⟩
    unfold asciiLower
    rw [if_neg]
    rintro ⟨_, hZ⟩
    exact absurd (lt_of_le_of_lt hZ (by decide : ('Z' : Char) < 'a')) (not_lt.mpr hc.1)
  · have hc := of_decide_eq_true hdig
    have hsp : c ≠ ' ' := by intro he; subst he; exact absurd hc (by decide)
    have hta : c ≠ '\t' := by intro he; subst he; exact absurd hc (by decide)
    have hnl : c ≠ '\n' := by intro he; subst he; exact absurd hc (by decide)
    have hcr : c ≠ '\r' := by intro he; subst he; exact absurd hc (by decide)
    have hsl : c ≠ '/' := by intro he; subst he; exact absurd hc (by decide)
    refine ⟨by simp [isWs, hsp, hta, hnl, hcr], ?_, hsl, hsp⟩
    unfold asciiLower
    rw [if_neg]
    rintro ⟨hA, _⟩
    exact absurd (lt_of_le_of_lt hc.2 (by decide : ('9' : Char) < 'A')) (not_lt.mpr hA)

/-- Membership in the two-element strip set `'. '`, computed. -/
theorem contains_pair (c : Char) :
    (['.', ' '] : List Char).contains c = (c == '.' || c == ' ') := by
  cases h1 : c == '.' <;> cases h2 : c == ' ' <;>
    simp [List.contains, List.elem, h1, h2]

/-- The first character of `replace(' ','')` applied after `strip('. ')` is
neither a dot nor a space. -/
theorem removeChar_stripSet_head {u : List Char} {c : Char}
    (h : (removeCharL ' ' (stripSetL ['.', ' '] u)).head? = some c) :
    (['.', ' '] : List Char).contains c = false := by
  cases hx : (stripSetL ['.', ' '] u).head? with
  | none =>
    rw [List.head?_eq_none_iff.mp hx] at h
    simp [removeCharL] at h
  | some c0 =>
    have hc0 := stripSetL_head hx
    have hq0 : (!(c0 == ' ')) = true := by
      rw [contains_pair] at hc0
      rcases Bool.or_eq_false_iff.mp hc0 with ⟨_, h2⟩
      simp [h2]
    have hh := filter_headOpt (q := fun d => !(d == ' ')) hx hq0
    unfold removeCharL at h
    rw [h] at hh
    injection hh with he
    rw [he]
    exact hc0

/-- The last character of `replace(' ','')` applied after `strip('. ')` is
neither a dot nor a space. -/
theorem removeChar_stripSet_getLast {u : List Char} {c : Char}
    (h : (removeCharL ' ' (stripSetL ['.', ' '] u)).getLast? = some c) :
    (['.', ' '] : List Char).contains c = false := by
  cases hx : (stripSetL ['.', ' '] u).getLast? with
  | none =>
    have hnil : stripSetL ['.', ' '] u = [] := by
      have h1 := hx
      rw [← List.head?_reverse] at h1
      have h2 := List.head?_eq_none_iff.mp h1
      simpa using congrArg List.reverse h2
    rw [hnil] at h
    simp [removeCharL] at h
  | some c0 =>
    have hc0 := stripSetL_getLast hx
    have hq0 : (!(c0 == ' ')) = true := by
      rw [contains_pair] at hc0
      rcases Bool.or_eq_false_iff.mp hc0 with ⟨_, h2⟩
      simp [h2]
    have hh := filter_getLastOpt (q := fun d => !(d == ' ')) hx hq0
    unfold removeCharL at h
    rw [h] at hh
    injection hh with he
    rw [he]
    exact hc0

/-- Re-sanitizing a value that already survived sanitization and validation,
and that does not itself start with `www.`, changes nothing. -/
theorem sanitizeDomain_fix {v : List Char}
    (hall : v.all isDomChar = true)
    (hends : stripSetL ['.', ' '] v = v)
    (hwww : hasWwwDot v = false) :
    sanitizeDomain (String.mk v) = v := by
  have hmem : ∀ c ∈ v, isDomChar c = true := by
    intro c hc
    exact List.all_eq_true.mp hall c hc
  have hws : ∀ c ∈ v, isWs c = false := fun c hc => (isDomChar_facts (hmem c hc)).1
  have hlow : ∀ c ∈ v, asciiLower c = c := fun c hc => (isDomChar_facts (hmem c hc)).2.1
  have hslash : '/' ∉ v := by
    intro hc
    exact absurd (isDomChar_facts (hmem _ hc)).2.2.1 (by simp)
  have hspace : ∀ c ∈ v, (!(c == ' ')) = true := by
    intro c hc
    have := (isDomChar_facts (hmem c hc)).2.2.2
    simpa using this
  unfold sanitizeDomain
  show removeCharL ' ' (stripSetL ['.', ' ']
    (trimL (takeUntilL '/' (stripWwwL (removeSchemesL (lowerL (trimL v))))))) = v
  rw [trimL_eq_self hws]
  unfold lowerL
  rw [map_id_of hlow]
  unfold removeSchemesL
  rw [removeSchemesGo_eq_self _ hslash]
  unfold stripWwwL
  rw [if_neg (by simp [hwww])]
  unfold takeUntilL
  rw [takeWhile_eq_self_of_all (fun c hc => by
    have hne : c ≠ '/' := fun he => hslash (he ▸ hc)
    simp [hne])]
  rw [trimL_eq_self hws, hends]
  unfold removeCharL
  exact List.filter_eq_self.mpr hspace

set_option maxHeartbeats 1000000 in
/-- Claim C9 counterexample: `clean_domain` strips the anchored `www.` only
once, so the accepted result `www.example.com` (from `www.www.example.com`)
shrinks again on a second cleaning — cleaning an already-cleaned non-empty
domain does not return it unchanged. -/
theorem C9_counterexample :
    clean_domain "www.www.example.com" = "www.example.com" ∧
    clean_domain "www.example.com" = "example.com" ∧
    ("www.example.com" : String) ≠ "example.com" := by
  refine ⟨by decide, by decide, by decide⟩

set_option maxHeartbeats 1600000 in
/-- Claim C9 (amended): every non-empty result of `clean_domain` has at most
40 characters, at most 3 dots and matches the validity pattern (the bounds
apply to the sanitized value, the one the code checks), and cleaning an
already-cleaned non-empty domain returns it unchanged — except when the
cleaned domain itself still begins with `www.`, where one more cleaning strips
that prefix again. -/
theorem C9_amended (s : String) :
    (clean_domain s = "" ∨
      ((clean_domain s).data.length ≤ 40 ∧
        countCharL '.' (clean_domain s).data ≤ 3 ∧
        domainReL (clean_domain s).data = true)) ∧
    (clean_domain s ≠ "" → hasWwwDot (clean_domain s).data = false →
      clean_domain (clean_domain s) = clean_domain s) := by
  by_cases hbad : 40 < (sanitizeDomain s).length ∨
      3 < countCharL '.' (sanitizeDomain s) ∨ ¬ domainReL (sanitizeDomain s)
  · have hempty : clean_domain s = "" := by
      unfold clean_domain
      rw [if_pos hbad]
    exact ⟨Or.inl hempty, fun hne _ => absurd hempty hne⟩
  · push_neg at hbad
    obtain ⟨h40, h3, hre⟩ := hbad
    have hval : clean_domain s = String.mk (sanitizeDomain s) := by
      unfold clean_domain
      rw [if_neg (by push_neg; exact ⟨h40, h3, hre⟩)]
    have hdata : (clean_domain s).data = sanitizeDomain s := by rw [hval]
    refine ⟨Or.inr ⟨by rw [hdata]; exact h40, by rw [hdata]; exact h3,
      by rw [hdata]; exact hre⟩, ?_⟩
    intro _ hwww
    rw [hdata] at hwww
    have hall : (sanitizeDomain s).all isDomChar = true := by
      have h' := hre
      unfold domainReL at h'
      simp only [Bool.and_eq_true] at h'
      exact h'.1.1.1.1
    have hends : stripSetL ['.', ' '] (sanitizeDomain s) = sanitizeDomain s := by
      unfold sanitizeDomain
      exact stripSetL_eq_self (fun c hc => removeChar_stripSet_head hc)
        (fun c hc => removeChar_stripSet_getLast hc)
    have hfix : sanitizeDomain (String.mk (sanitizeDomain s)) = sanitizeDomain s :=
      sanitizeDomain_fix hall hends hwww
    rw [hval]
    unfold clean_domain
    rw [hfix, if_neg (by push_neg; exact ⟨h40, h3, hre⟩)]

set_option maxHeartbeats 1000000 in
/-- Claim C9 witness: the amended theorem instantiated at `example.com`,
whose cleaning is non-empty, not `www.`-prefixed, and hence idempotent. -/
theorem C9_amended_witness :
    clean_domain (clean_domain "example.com") = clean_domain "example.com" :=
  (C9_amended "example.com").2 (by decide) (by decide)

/-! ## Claim C3: the Hunter.io confidence threshold
(email_pattern_filler.py:130-166 and 218-233) -/

/-- Outcome of one Hunter.io domain-search request: a completed request
carries the HTTP status and, when `data['data']['pattern']` is present, that
pattern together with the optional `confidence` field. -/
inductive HunterResp where
  | ok (status : Nat) (body : Option (String × Option Int))
  | exn
deriving Repr, DecidableEq

/-- The `hunter_to_our_pattern` mapping (email_pattern_filler.py:151-157):
provider template syntax to a catalog pattern, defaulting to `first.last`. -/
def hunter_to_our_pattern (p : String) : String :=
  if p = "\x7bfirst\x7d.\x7blast\x7d" then "first.last"
  else if p = "\x7bfirst\x7d\x7blast\x7d" then "firstlast"
  else if p = "\x7bfirst\x7d_\x7blast\x7d" then "first_last"
  else if p = "\x7bf\x7d.\x7blast\x7d" then "f.last"
  else if p = "\x7bfirst\x7d" then "first"
  else "first.last"

/-- `get_hunter_email_format` (email_pattern_filler.py:130-166): no key or any
non-200/exception outcome yields `(None, None)`; a 200 response with a pattern
yields the mapped pattern and `data['data'].get('confidence', 0)`. -/
def get_hunter_email_format (key : String) (resp : HunterResp) :
    Option String × Option Int :=
  if key = "" then (none, none)
  else
    match resp with
    | .ok status (some (p, conf)) =>
      if status = 200 then (some (hunter_to_our_pattern p), some (conf.getD 0))
      else (none, none)
    | .ok _ none => (none, none)
    | .exn => (none, none)

/-- Method 1 acceptance inside the first `get_verified_email_pattern`
(email_pattern_filler.py:229-233): the Hunter answer is taken only when
`hunter_pattern and confidence and confidence > 50` — pattern truthy,
confidence truthy (non-zero) and STRICTLY above 50. -/
def hunter_accept (key : String) (resp : HunterResp) : Option String :=
  match get_hunter_email_format key resp with
  | (some p, some conf) =>
    if p ≠ "" ∧ conf ≠ 0 ∧ 50 < conf then some p else none
  | _ => none

/-- The accepted answer is written into `_email_pattern_cache` under the
lowercased domain and returned (email_pattern_filler.py:221,232-233). -/
def gvp1_hunter_step (cache : List (String × String)) (domain key : String)
    (resp : HunterResp) : Option String × List (String × String) :=
  match hunter_accept key resp with
  | some p => (some p, (lowerS domain, p) :: cache)
  | none => (none, cache)

/-- Every value of the Hunter mapping is a non-empty catalog pattern. -/
theorem hunter_to_our_pattern_ne_empty (p : String) : hunter_to_our_pattern p ≠ "" := by
  unfold hunter_to_our_pattern
  repeat' split
  all_goals decide

/-- Claim C3 counterexample: a provider answer with confidence exactly 50 is
rejected, although the lookup did report a pattern with that confidence. -/
theorem C3_counterexample :
    hunter_accept "k" (.ok 200 (some ("\x7bfirst\x7d.\x7blast\x7d", some 50))) = none ∧
    get_hunter_email_format "k" (.ok 200 (some ("\x7bfirst\x7d.\x7blast\x7d", some 50))) =
      (some "first.last", some 50) := by
  exact ⟨by decide, by decide⟩

/-- Claim C3 (amended): a provider answer that reports a pattern is accepted
iff the request returned HTTP 200 and its reported confidence is STRICTLY
greater than 50 percent (confidence exactly 50, a missing confidence, or
confidence 0 are all rejected); an accepted pattern is cached under the
lowercased domain and returned. -/
theorem C3_amended (key domain : String) (status : Nat) (p : String)
    (conf : Option Int) (cache : List (String × String)) (hk : key ≠ "") :
    (hunter_accept key (.ok status (some (p, conf))) ≠ none ↔
      status = 200 ∧ 50 < conf.getD 0) ∧
    (∀ resp q, hunter_accept key resp = some q →
      gvp1_hunter_step cache domain key resp = (some q, (lowerS domain, q) :: cache) ∧
      ((lowerS domain, q) :: cache).lookup (lowerS domain) = some q) := by
  constructor
  · have hred : get_hunter_email_format key (.ok status (some (p, conf))) =
        if status = 200 then (some (hunter_to_our_pattern p), some (conf.getD 0))
        else (none, none) := by
      unfold get_hunter_email_format
      rw [if_neg hk]
    unfold hunter_accept
    rw [hred]
    by_cases h200 : status = 200
    · rw [if_pos h200]
      show (if hunter_to_our_pattern p ≠ "" ∧ conf.getD 0 ≠ 0 ∧ 50 < conf.getD 0
        then some (hunter_to_our_pattern p) else none) ≠ none ↔
          status = 200 ∧ 50 < conf.getD 0
      by_cases hgt : 50 < conf.getD 0
      · rw [if_pos ⟨hunter_to_our_pattern_ne_empty p, by omega, hgt⟩]
        simp [hgt, h200]
      · rw [if_neg (fun hcon => hgt hcon.2.2)]
        simp [hgt]
    · rw [if_neg h200]
      show (none : Option String) ≠ none ↔ status = 200 ∧ 50 < conf.getD 0
      simp [h200]
  · intro resp q hq
    unfold gvp1_hunter_step
    rw [hq]
    exact ⟨rfl, by simp [List.lookup]⟩

/-- Claim C3 witness: confidence 51 on a 200 response is accepted. -/
theorem C3_amended_witness :
    hunter_accept "k" (.ok 200 (some ("\x7bf\x7d.\x7blast\x7d", some 51))) ≠ none :=
  (C3_amended "k" "Acme.com" 200 "\x7bf\x7d.\x7blast\x7d" (some 51) [] (by decide)).1.mpr
    ⟨rfl, by decide⟩

/-! ## NameNormalizer: `clean_name` (email_pattern_filler.py:1094-1161) -/

/-- The apostrophe character (codepoint 39). -/
def apos : Char := Char.ofNat 39

/-- Python `str.rstrip('.')`. -/
def rstripDots (l : List Char) : List Char :=
  (l.reverse.dropWhile (fun c => c == '.')).reverse

/-- ASCII `str.isalpha` (the scripts' honorific/initial tokens are ASCII). -/
def isAlphaC (c : Char) : Bool :=
  isLowerAlpha c || decide ('A' ≤ c ∧ c ≤ 'Z')

/-- The honorific set of step 5 (email_pattern_filler.py:1127). -/
def honorifics : List (List Char) :=
  (["mr", "ms", "mrs", "dr", "prof", "miss", "sir", "madam", "lady", "lord"]).map
    String.data

/-- Scan to just after the first `)`, if any. -/
def parenChop : List Char → Option (List Char)
  | [] => none
  | c :: rest => if c = ')' then some rest else parenChop rest

/-- Scanner for `re.sub(r"\([^)]*\)", "", name)`: drop each `(`…first-`)` span;
a `(` with no later `)` stays. -/
def removeParensGo : Nat → List Char → List Char
  | 0, l => l
  | _ + 1, [] => []
  | fuel + 1, c :: rest =>
    if c = '(' then
      match parenChop rest with
      | some rest2 => removeParensGo fuel rest2
      | none => c :: removeParensGo fuel rest
    else c :: removeParensGo fuel rest

/-- Remove parenthesized asides. -/
def removeParensL (l : List Char) : List Char := removeParensGo l.length l

/-- The three quote substitutions of step 4
(`"([^"]+)"` → content, `'([^']+)'` → content, then delete remaining quote
characters): unwrapping keeps the content and only deletes the quote
characters themselves, so the composition deletes every `"` and `'`. -/
def removeQuotesL (l : List Char) : List Char :=
  removeCharL apos (removeCharL '"' l)

/-- A token that is a single alphabetic character once trailing dots are
stripped (step 6: a middle initial). -/
def isInitialTok (w : List Char) : Bool :=
  match rstripDots w with
  | [c] => isAlphaC c
  | _ => false

/-- The keep-class `[a-zA-Z\s'\-]` of step 7. -/
def isNameKeep (c : Char) : Bool :=
  isAlphaC c || isWs c || c == apos || c == '-'

/-- `clean_name` (email_pattern_filler.py:1094-1161), step by step: whitespace
collapse; truncate at `,`/`;`/`|`; drop parenthesized asides; delete quote
characters; drop one leading honorific token; drop single-letter (middle
initial) tokens; conservatively strip leading/trailing non-name characters;
re-collapse; finally remove apostrophes and hyphens and lowercase. -/
def clean_name (s : String) : String :=
  let original := trimL s.data
  if original = [] then ""
  else
    let n1 := trimL (collapseWsL original)
    let n2 := trimL (takeUntilL ',' n1)
    let n3 := trimL (takeUntilL ';' n2)
    let n4 := trimL (takeUntilL '|' n3)
    let n5 := trimL (removeParensL n4)
    let n6 := trimL (removeQuotesL n5)
    let n7 :=
      match splitWsL n6 with
      | [] => n6
      | w :: rest =>
        if honorifics.contains (rstripDots (lowerL w)) then joinSpace rest else n6
    let n8 := joinSpace ((splitWsL n7).filter (fun w => !(isInitialTok w)))
    let n9 := ((n8.dropWhile (fun c => !(isNameKeep c))).reverse.dropWhile
      (fun c => !(isNameKeep c))).reverse
    let n10 := trimL (collapseWsL n9)
    if n10 = [] then ""
    else String.mk (lowerL (removeCharL '-' (removeCharL apos n10)))

set_option maxHeartbeats 1000000 in
/-- Claim C8 (confirmed): the three normalizations the spec records hold on
the embedded `clean_name`: credentials after the comma are cut, a leading
middle initial token is dropped, and the apostrophe is removed for the
email-safe form. -/
theorem C8_name_normalization :
    clean_name "Meinen, MS, CISSP" = "meinen" ∧
    clean_name "J. Prajzner" = "prajzner" ∧
    clean_name (String.mk ['D', apos, 'A', 'l', 't', 'e', 'r', 'i', 'o']) = "dalterio" := by
  refine ⟨by decide, by decide, by decide⟩

/-! ## Claim C6: regional-domain preference
(email_pattern_filler.py:756-818 and 944-965) -/

/-- The result dict built by the second `get_verified_email_pattern`
(email_pattern_filler.py:929-935). -/
structure PatternResult where
  primary_domain : String
  primary_pattern : String
  regional_domains : List (String × String)
  recommended_domain : String
  recommended_pattern : String
deriving Repr, DecidableEq

/-- The initial result value (email_pattern_filler.py:929-935). -/
def initPatternResult (domain : String) : PatternResult :=
  ⟨domain, "first.last", [], domain, "first.last"⟩

/-- `get_known_regional_patterns` (email_pattern_filler.py:756-818): the
curated per-company mapping of regional subdomains, in source order. -/
def known_regional_patterns : List (String × List (String × String)) :=
  [("bureauveritas.com",
     [("us.bureauveritas.com", "first.last"), ("uk.bureauveritas.com", "first.last"),
      ("ca.bureauveritas.com", "first.last"), ("au.bureauveritas.com", "first.last")]),
   ("ul.com", []),
   ("dnvgl.com",
     [("us.dnvgl.com", "first.last"), ("no.dnvgl.com", "first.last"),
      ("uk.dnvgl.com", "first.last")]),
   ("tuvsud.com",
     [("us.tuvsud.com", "first.last"), ("de.tuvsud.com", "first.last"),
      ("uk.tuvsud.com", "first.last")]),
   ("sgs.com",
     [("us.sgs.com", "first.last"), ("uk.sgs.com", "first.last"),
      ("ca.sgs.com", "first.last"), ("de.sgs.com", "first.last")]),
   ("intertek.com",
     [("us.intertek.com", "first.last"), ("uk.intertek.com", "first.last"),
      ("ca.intertek.com", "first.last")]),
   ("ge.com",
     [("us.ge.com", "first.last"), ("uk.ge.com", "first.last"),
      ("de.ge.com", "first.last")]),
   ("siemens.com",
     [("usa.siemens.com", "first.last"), ("uk.siemens.com", "first.last"),
      ("de.siemens.com", "first.last")]),
   ("abb.com",
     [("us.abb.com", "first.last"), ("uk.abb.com", "first.last"),
      ("de.abb.com", "first.last")]),
   ("emerson.com",
     [("us.emerson.com", "first.last"), ("uk.emerson.com", "first.last")]),
   ("honeywell.com",
     [("us.honeywell.com", "first.last"), ("uk.honeywell.com", "first.last")])]

/-- Curated regional mapping for one domain (empty when unknown). -/
def get_known_regional_patterns (domain : String) : List (String × String) :=
  (known_regional_patterns.lookup domain).getD []

/-- Method 2 of the second `get_verified_email_pattern`
(email_pattern_filler.py:944-965): when the curated mapping is non-empty,
record ALL regional domains, then recommend `us.<domain>` when present, else
`usa.<domain>` when present, else the first entry of the mapping. -/
def regional_step (domain : String) (kr : List (String × String))
    (r : PatternResult) : PatternResult :=
  if kr = [] then r
  else
    let r1 := { r with regional_domains := kr }
    match kr.lookup ("us." ++ domain) with
    | some p =>
      { r1 with recommended_domain := "us." ++ domain, recommended_pattern := p }
    | none =>
      match kr.lookup ("usa." ++ domain) with
      | some p =>
        { r1 with recommended_domain := "usa." ++ domain, recommended_pattern := p }
      | none =>
        match kr with
        | [] => r1
        | (d, p) :: _ =>
          { r1 with recommended_domain := d, recommended_pattern := p }

/-- Claim C6 (confirmed): for every domain with a recorded (curated,
non-empty) mapping of regional subdomains, the engine records the whole
mapping in the result and recommends `us.<domain>` when present, otherwise
`usa.<domain>` when present, otherwise the first other regional domain of
the mapping — regardless of the incoming result value. -/
theorem C6_regional_selection (domain : String) (kr : List (String × String))
    (r : PatternResult)
    (htab : get_known_regional_patterns domain = kr) (hne : kr ≠ []) :
    (regional_step domain kr r).regional_domains = kr ∧
    (∀ p, kr.lookup ("us." ++ domain) = some p →
      (regional_step domain kr r).recommended_domain = "us." ++ domain ∧
      (regional_step domain kr r).recommended_pattern = p) ∧
    (kr.lookup ("us." ++ domain) = none →
      ∀ p, kr.lookup ("usa." ++ domain) = some p →
        (regional_step domain kr r).recommended_domain = "usa." ++ domain ∧
        (regional_step domain kr r).recommended_pattern = p) ∧
    (kr.lookup ("us." ++ domain) = none → kr.lookup ("usa." ++ domain) = none →
      ∀ d p rest, kr = (d, p) :: rest →
        (regional_step domain kr r).recommended_domain = d ∧
        (regional_step domain kr r).recommended_pattern = p) := by
  clear htab
  refine ⟨?_, ?_, ?_, ?_⟩
  · unfold regional_step
    rw [if_neg hne]
    cases kr.lookup ("us." ++ domain) with
    | some p => rfl
    | none =>
      cases kr.lookup ("usa." ++ domain) with
      | some p => rfl
      | none =>
        cases kr with
        | nil => rfl
        | cons hd tl => rfl
  · intro p hp
    unfold regional_step
    rw [if_neg hne, hp]
    exact ⟨rfl, rfl⟩
  · intro hus p hp
    unfold regional_step
    rw [if_neg hne, hus, hp]
    exact ⟨rfl, rfl⟩
  · intro hus husa d p rest hkr
    unfold regional_step
    rw [if_neg hne, hus, husa]
    subst hkr
    exact ⟨rfl, rfl⟩

/-- Claim C6 witness: `bureauveritas.com` has a recorded mapping with both a
base and a `us.`-prefixed entry; the engine selects the `us.` variant. -/
theorem C6_regional_selection_witness :
    (regional_step "bureauveritas.com"
        (get_known_regional_patterns "bureauveritas.com")
        (initPatternResult "bureauveritas.com")).recommended_domain =
      "us.bureauveritas.com" :=
  ((C6_regional_selection "bureauveritas.com"
      (get_known_regional_patterns "bureauveritas.com")
      (initPatternResult "bureauveritas.com") rfl (by decide)).2.1
    "first.last" (by decide)).1

/-! ## Claim C7: candidate order for multi-word surnames
(email_pattern_filler.py:323-334, 1449-1469, 1517-1607) -/

/-- First character of a string as a string (Python `s[0]`; callers guard
against the empty string, mirroring the `if f` / `if l` guards). -/
def strTakeOne (s : String) : String :=
  match s.data with
  | [] => ""
  | c :: _ => String.mk [c]

/-- `PATTERN_FUNCS` (email_pattern_filler.py:323-334): catalog key to local
part renderer; keys in source order.  The conditional expressions
(`... if f else ""`) are the source's own truthiness guards. -/
def pattern_func (p : String) : Option (String → String → String) :=
  if p = "first.last" then some (fun f l => f ++ "." ++ l)
  else if p = "f.last" then some (fun f l => if f = "" then "" else strTakeOne f ++ "." ++ l)
  else if p = "firstl" then some (fun f l => if l = "" then "" else f ++ strTakeOne l)
  else if p = "first_last" then some (fun f l => f ++ "_" ++ l)
  else if p = "firstlast" then some (fun f l => f ++ l)
  else if p = "f_last" then some (fun f l => if f = "" then "" else strTakeOne f ++ l)
  else if p = "flast" then some (fun f l => if f = "" ∨ l = "" then "" else strTakeOne f ++ l)
  else if p = "lastf" then some (fun f l => if f = "" ∨ l = "" then "" else l ++ strTakeOne f)
  else if p = "last" then some (fun _ l => l)
  else if p = "first" then some (fun f _ => f)
  else none

/-- The common-pattern list appended after the domain's primary pattern
(email_pattern_filler.py:1535). -/
def common_patterns : List String :=
  ["first.last", "firstlast", "first_last", "f.last", "firstl", "flast", "lastf"]

/-- `pattern_priority` construction (email_pattern_filler.py:1532-1538):
primary pattern first, then each common pattern not already present. -/
def pattern_priority (primary : String) : List String :=
  common_patterns.foldl (fun acc p => if p ∈ acc then acc else acc ++ [p]) [primary]

/-- `process_multi_part_name` (email_pattern_filler.py:1449-1469) combined
with the `isinstance(..., dict)` unpacking of `test_multiple_email_patterns`
(1543-1551): exactly-two-word surnames yield the `[hyphenated, concatenated,
space-stripped]` variant triple; anything else yields one lowercased variant
verbatim (spaces preserved). -/
def process_name_variants (ln : String) : List String :=
  let name := trimL ln.data
  if name = [] then [""]
  else if name.contains ' ' then
    match splitWsL name with
    | [a, b] =>
      [lowerS (String.mk (a ++ '-' :: b)), lowerS (String.mk (a ++ b)),
       lowerS (String.mk (removeCharL ' ' name))]
    | _ => [lowerS (String.mk name)]
  else [lowerS (String.mk name)]

/-- The sequence of candidate emails generated by the nested loops of
`test_multiple_email_patterns` (email_pattern_filler.py:1554-1566):
pattern-major over the priority list, variants inner; an empty variant, an
unknown pattern key, or an empty local part is skipped. -/
def test_email_order (primary fn ln domain : String) : List String :=
  (pattern_priority primary).flatMap (fun p =>
    (process_name_variants ln).filterMap (fun v =>
      if v = "" then none
      else
        match pattern_func p with
        | none => none
        | some f =>
          if f fn v = "" then none else some (f fn v ++ "@" ++ domain)))

/-- A string with empty character data is the empty string. -/
theorem eq_empty_of_data_eq_nil {s : String} (h : s.data = []) : s = "" := by
  cases s with
  | mk d =>
    simp only [String.data] at h
    rw [h]

/-- Appending onto a non-empty string stays non-empty. -/
theorem strAppend_ne_empty_left {a : String} (b : String) (ha : a ≠ "") :
    a ++ b ≠ "" := by
  intro h
  have hd := congrArg String.data h
  rw [String.data_append] at hd
  rcases List.append_eq_nil.mp (by simpa using hd) with ⟨h1, _⟩
  exact ha (eq_empty_of_data_eq_nil h1)

/-- Appending a non-empty string stays non-empty. -/
theorem strAppend_ne_empty_right (a : String) {b : String} (hb : b ≠ "") :
    a ++ b ≠ "" := by
  intro h
  have hd := congrArg String.data h
  rw [String.data_append] at hd
  rcases List.append_eq_nil.mp (by simpa using hd) with ⟨_, h2⟩
  exact hb (eq_empty_of_data_eq_nil h2)

/-- Lowercasing a non-empty character list gives a non-empty string. -/
theorem lowerS_ne_empty {l : List Char} (h : l ≠ []) : lowerS (String.mk l) ≠ "" := by
  intro he
  have hd := congrArg String.data he
  simp only [lowerS, lowerL, String.data] at hd
  exact h (List.map_eq_nil_iff.mp hd)

set_option maxHeartbeats 1000000 in
/-- Every catalog renderer yields a non-empty local part on non-empty
first/last inputs. -/
theorem pattern_func_ne_empty {p : String} {f : String → String → String}
    (hp : pattern_func p = some f) {fn v : String} (hfn : fn ≠ "") (hv : v ≠ "") :
    f fn v ≠ "" := by
  unfold pattern_func at hp
  split_ifs at hp
  · injection hp with hf; subst hf
    exact strAppend_ne_empty_right _ hv
  · injection hp with hf; subst hf
    show (if fn = "" then "" else strTakeOne fn ++ "." ++ v) ≠ ""
    rw [if_neg hfn]; exact strAppend_ne_empty_right _ hv
  · injection hp with hf; subst hf
    show (if v = "" then "" else fn ++ strTakeOne v) ≠ ""
    rw [if_neg hv]; exact strAppend_ne_empty_left _ hfn
  · injection hp with hf; subst hf
    exact strAppend_ne_empty_right _ hv
  · injection hp with hf; subst hf
    exact strAppend_ne_empty_left _ hfn
  · injection hp with hf; subst hf
    show (if fn = "" then "" else strTakeOne fn ++ v) ≠ ""
    rw [if_neg hfn]; exact strAppend_ne_empty_right _ hv
  · injection hp with hf; subst hf
    show (if fn = "" ∨ v = "" then "" else strTakeOne fn ++ v) ≠ ""
    rw [if_neg (by tauto)]; exact strAppend_ne_empty_right _ hv
  · injection hp with hf; subst hf
    show (if fn = "" ∨ v = "" then "" else v ++ strTakeOne fn) ≠ ""
    rw [if_neg (by tauto)]; exact strAppend_ne_empty_left _ hv
  · injection hp with hf; subst hf
    exact hv
  · injection hp with hf; subst hf
    exact hfn

/-- When no guard fires, the candidate filter over the variants is a plain map. -/
theorem filterMap_variants_eq_map (f : String → String → String) (fn domain : String)
    (vs : List String) (hv : ∀ v ∈ vs, v ≠ "") (hf : ∀ v ∈ vs, f fn v ≠ "") :
    vs.filterMap (fun v =>
      if v = "" then none
      else if f fn v = "" then none else some (f fn v ++ "@" ++ domain)) =
    vs.map (fun v => f fn v ++ "@" ++ domain) := by
  induction vs with
  | nil => rfl
  | cons a t ih =>
    have h1 : (if a = "" then none
        else if f fn a = "" then none else some (f fn a ++ "@" ++ domain)) =
        some (f fn a ++ "@" ++ domain) := by
      rw [if_neg (hv a (List.mem_cons_self a t)),
        if_neg (hf a (List.mem_cons_self a t))]
    rw [List.filterMap_cons, h1, List.map_cons,
      ih (fun x hx => hv x (List.mem_cons_of_mem a hx))
        (fun x hx => hf x (List.mem_cons_of_mem a hx))]

/-- `flatMap` respects pointwise equality of the inner function. -/
theorem flatMap_congr_on {L : List String} {g1 g2 : String → List String}
    (h : ∀ p ∈ L, g1 p = g2 p) : L.flatMap g1 = L.flatMap g2 := by
  induction L with
  | nil => rfl
  | cons a t ih =>
    rw [List.flatMap_cons, List.flatMap_cons, h a (List.mem_cons_self a t),
      ih (fun p hp => h p (List.mem_cons_of_mem a hp))]

set_option maxHeartbeats 1000000 in
/-- Claim C7 counterexample: the three-word surname `de la cruz` produces a
SINGLE verbatim variant (spaces kept), not the hyphenated / concatenated /
space-stripped triple; only one candidate per pattern is generated and the
hyphenated candidate never appears. -/
theorem C7_counterexample :
    process_name_variants "de la cruz" = ["de la cruz"] ∧
    (test_email_order "first.last" "ana" "de la cruz" "acme.test").length = 7 ∧
    (pattern_priority "first.last").length = 7 ∧
    "ana.de-la-cruz@acme.test" ∉ test_email_order "first.last" "ana" "de la cruz" "acme.test" := by
  refine ⟨by decide, by decide, by decide, by decide⟩

/-- Claim C7 (amended): for a surname of EXACTLY two space-separated words,
candidates are generated pattern-major: the variants are the hyphenated,
concatenated and verbatim space-stripped surname forms (in that order, the
latter two coinciding for a single-space surname), and for each pattern of
the priority list all three are rendered before the next pattern; a surname
of three or more words instead contributes one verbatim lowercased variant
per pattern. -/
theorem C7_amended (primary fn domain ln : String) (w1 w2 : List Char)
    (hfn : fn ≠ "")
    (hsp : (trimL ln.data).contains ' ' = true)
    (hparts : splitWsL (trimL ln.data) = [w1, w2])
    (hw1 : w1 ≠ []) (hw2 : w2 ≠ [])
    (horig : removeCharL ' ' (trimL ln.data) ≠ []) :
    process_name_variants ln =
      [lowerS (String.mk (w1 ++ '-' :: w2)), lowerS (String.mk (w1 ++ w2)),
       lowerS (String.mk (removeCharL ' ' (trimL ln.data)))] ∧
    test_email_order primary fn ln domain =
      (pattern_priority primary).flatMap (fun p =>
        match pattern_func p with
        | some f => (process_name_variants ln).map (fun v => f fn v ++ "@" ++ domain)
        | none => []) := by
  have hne : trimL ln.data ≠ [] := by
    intro h0
    rw [h0] at hsp
    exact absurd hsp (by decide)
  have hvar : process_name_variants ln =
      [lowerS (String.mk (w1 ++ '-' :: w2)), lowerS (String.mk (w1 ++ w2)),
       lowerS (String.mk (removeCharL ' ' (trimL ln.data)))] := by
    unfold process_name_variants
    rw [if_neg hne, if_pos hsp, hparts]
  have hvne : ∀ v ∈ process_name_variants ln, v ≠ "" := by
    rw [hvar]
    intro v hv
    simp only [List.mem_cons, List.not_mem_nil, or_false] at hv
    rcases hv with h | h | h
    · rw [h]; exact lowerS_ne_empty (by simp)
    · rw [h]; exact lowerS_ne_empty (by simp [hw1])
    · rw [h]; exact lowerS_ne_empty horig
  refine ⟨hvar, ?_⟩
  unfold test_email_order
  apply flatMap_congr_on
  intro p _
  cases hpf : pattern_func p with
  | none =>
    simp only [hpf]
    exact List.filterMap_eq_nil_iff.mpr (fun v _ => by split <;> rfl)
  | some f =>
    simp only [hpf]
    exact filterMap_variants_eq_map f fn domain _ hvne
      (fun v hv => pattern_func_ne_empty hpf hfn (hvne v hv))

set_option maxHeartbeats 1000000 in
/-- Claim C7 witness: the two-word surname `smith jones` yields the variant
triple and the full pattern-major candidate grid. -/
theorem C7_amended_witness :
    process_name_variants "smith jones" = ["smith-jones", "smithjones", "smithjones"] ∧
    test_email_order "first.last" "mary" "smith jones" "acme.test" =
      (pattern_priority "first.last").flatMap (fun p =>
        match pattern_func p with
        | some f => (process_name_variants "smith jones").map
            (fun v => f "mary" v ++ "@" ++ "acme.test")
        | none => []) := by
  have h := C7_amended "first.last" "mary" "acme.test" "smith jones"
    "smith".data "jones".data (by decide) (by decide) (by decide)
    (by decide) (by decide) (by decide)
  exact ⟨h.1.trans (by decide), h.2⟩

/-! ## The robust pipeline (robust_email_filler.py): claims C4 and C5 -/

/-- Case-sensitive list prefix test. -/
def startsWithL : List Char → List Char → Bool
  | [], _ => true
  | _ :: _, [] => false
  | t :: ts, c :: cs => (c == t) && startsWithL ts cs

/-- Case-insensitive prefix test against a lowercase token. -/
def startsWithCI : List Char → List Char → Bool
  | [], _ => true
  | _ :: _, [] => false
  | t :: ts, c :: cs => (asciiLower c == t) && startsWithCI ts cs

/-- Case-sensitive suffix test. -/
def endsWithL (suf l : List Char) : Bool := startsWithL suf.reverse l.reverse

/-- Substring search helper with fuel. -/
def containsSubGo : Nat → List Char → List Char → Bool
  | 0, _, _ => false
  | _ + 1, [], sub => sub.isEmpty
  | fuel + 1, c :: rest, sub =>
    startsWithL sub (c :: rest) || containsSubGo fuel rest sub

/-- Python `sub in l` (case-sensitive substring test). -/
def containsSub (l sub : List Char) : Bool := containsSubGo (l.length + 1) l sub

/-- Python `\w` on the ASCII range (letters, digits, underscore). -/
def isWordChar (c : Char) : Bool := isAlphaC c || isDigitC c || c == '_'

/-- Try each token (lowercase, alphabetic) in order against the head of `l`,
requiring a word boundary after the token (regex `\b(t1|t2|…)\b`); return the
rest of the list after the matched token. -/
def tryToks (toks : List (List Char)) (l : List Char) : Option (List Char) :=
  match toks with
  | [] => none
  | t :: ts =>
    if startsWithCI t l then
      match l.drop t.length with
      | [] => some []
      | c :: cs => if isWordChar c then tryToks ts l else some (c :: cs)
    else tryToks ts l

/-- Scanner for `re.sub(r'\b(tok|…)\b\.?(\s*)?', '', name, flags=I)`:
`prevWord` tracks whether the character before the scan position is a word
character (no boundary → no match may start); a match consumes the token, an
optional dot, and — when `consumeWs` — following whitespace. -/
def stripTokensGo (toks : List (List Char)) (consumeWs : Bool) :
    Nat → Bool → List Char → List Char
  | 0, _, l => l
  | _ + 1, _, [] => []
  | fuel + 1, prevWord, c :: rest =>
    if prevWord then c :: stripTokensGo toks consumeWs fuel (isWordChar c) rest
    else
      match tryToks toks (c :: rest) with
      | some rest2 =>
        match rest2 with
        | '.' :: r =>
          if consumeWs then
            stripTokensGo toks consumeWs fuel false (r.dropWhile (fun x => isWs x))
          else stripTokensGo toks consumeWs fuel false r
        | r =>
          if consumeWs then
            match r with
            | [] => []
            | x :: _ =>
              if isWs x then
                stripTokensGo toks consumeWs fuel false (r.dropWhile (fun y => isWs y))
              else stripTokensGo toks consumeWs fuel true r
          else stripTokensGo toks consumeWs fuel true r
      | none => c :: stripTokensGo toks consumeWs fuel (isWordChar c) rest

/-- Remove whole-word tokens (with optional trailing dot / whitespace). -/
def stripTokensL (toks : List (List Char)) (consumeWs : Bool) (l : List Char) :
    List Char :=
  stripTokensGo toks consumeWs l.length false l

/-- Suffix/credential tokens of `clean_name` (robust_email_filler.py:102). -/
def suffixToks : List (List Char) :=
  (["jr", "sr", "ii", "iii", "iv", "phd", "md", "mba", "cpa"]).map String.data

/-- Honorific tokens of `clean_name` (robust_email_filler.py:103). -/
def honorificToks : List (List Char) :=
  (["mr", "mrs", "ms", "dr", "prof"]).map String.data

/-- `clean_name` (robust_email_filler.py:95-109): strip, drop credential and
honorific word tokens, remove characters outside `[\w\s\-']`, collapse
whitespace.  (Unlike the email_pattern_filler variant it does NOT lowercase.) -/
def clean_name_robust (s : String) : String :=
  if s = "" then ""
  else
    let n0 := trimL s.data
    let n1 := stripTokensL suffixToks false n0
    let n2 := stripTokensL honorificToks true n1
    let n3 := n2.filter (fun c => isWordChar c || isWs c || c == '-' || c == apos)
    String.mk (trimL (collapseWsL n3))

/-- `get_industry_from_company` (robust_email_filler.py:111-129): keyword
substring match on the lowercased company name, first hit wins. -/
def get_industry_from_company (company : String) : String :=
  let cl := lowerL company.data
  if (["medical", "health", "pharma", "bio", "surgical", "dental", "device",
       "diagnostic"]).any (fun kw => containsSub cl kw.data) then "medical"
  else if (["tech", "software", "digital", "systems", "solutions", "data"]).any
      (fun kw => containsSub cl kw.data) then "technology"
  else if (["consulting", "advisory", "partners", "group"]).any
      (fun kw => containsSub cl kw.data) then "consulting"
  else if (["manufacturing", "industrial", "corp", "inc", "company"]).any
      (fun kw => containsSub cl kw.data) then "manufacturing"
  else "general"

/-- `INDUSTRY_PATTERN_HINTS` (robust_email_filler.py:87-93). -/
def industry_pattern_hints (ind : String) : Option (List String) :=
  if ind = "medical" then some ["first.last", "f.last", "firstlast"]
  else if ind = "technology" then some ["first.last", "firstlast", "f.last"]
  else if ind = "consulting" then some ["first.last", "f.last"]
  else if ind = "manufacturing" then some ["first.last", "firstlast"]
  else if ind = "pharmaceutical" then some ["first.last", "f.last"]
  else none

/-- `KNOWN_PATTERNS` (robust_email_filler.py:53-84). -/
def known_patterns_robust : List (String × String) :=
  [("bureauveritas.com", "first.last"), ("us.bureauveritas.com", "first.last"),
   ("ul.com", "first.last"), ("dnvgl.com", "first.last"), ("tuvsud.com", "first.last"),
   ("mistrasgroup.com", "first.last"), ("medtronic.com", "first.last"),
   ("abbottlabs.com", "first.last"), ("jnj.com", "f.last"), ("ge.com", "firstlast"),
   ("siemens.com", "first.last"), ("philips.com", "first.last"),
   ("gmail.com", "firstlast"), ("outlook.com", "firstlast"), ("yahoo.com", "firstlast"),
   ("stryker.com", "first.last"), ("zimmer.com", "first.last"),
   ("boston-scientific.com", "first.last"), ("edwards.com", "first.last")]

/-- `PATTERN_FUNCS` of robust_email_filler.py:41-50 — the renderers lowercase
their inputs themselves; `f[0]`/`l[0]` only execute behind the non-empty
guards of `generate_email_with_pattern`. -/
def pattern_funcs_robust (p : String) : Option (String → String → String) :=
  if p = "first.last" then some (fun f l => lowerS f ++ "." ++ lowerS l)
  else if p = "firstlast" then some (fun f l => lowerS f ++ lowerS l)
  else if p = "first_last" then some (fun f l => lowerS f ++ "_" ++ lowerS l)
  else if p = "f.last" then some (fun f l => lowerS (strTakeOne f) ++ "." ++ lowerS l)
  else if p = "firstl" then some (fun f l => lowerS f ++ lowerS (strTakeOne l))
  else if p = "first" then some (fun f _ => lowerS f)
  else if p = "last.first" then some (fun f l => lowerS l ++ "." ++ lowerS f)
  else if p = "l.first" then some (fun f l => lowerS (strTakeOne l) ++ "." ++ lowerS f)
  else none

/-- The robust Hunter template mapping (robust_email_filler.py:292-301). -/
def hunter_to_pattern_robust (p : String) : String :=
  if p = "\x7bfirst\x7d.\x7blast\x7d" then "first.last"
  else if p = "\x7bfirst\x7d\x7blast\x7d" then "firstlast"
  else if p = "\x7bfirst\x7d_\x7blast\x7d" then "first_last"
  else if p = "\x7bf\x7d.\x7blast\x7d" then "f.last"
  else if p = "\x7bfirst\x7d\x7bl\x7d" then "firstl"
  else if p = "\x7bfirst\x7d" then "first"
  else if p = "\x7blast\x7d.\x7bfirst\x7d" then "last.first"
  else if p = "\x7bl\x7d.\x7bfirst\x7d" then "l.first"
  else "first.last"

/-- The Hunter branch of the robust `get_verified_email_pattern`
(robust_email_filler.py:277-308): key configured, HTTP 200, pattern present
— no confidence threshold here; exceptions fall through. -/
def gvp_robust_hunter (key : String) (resp : HunterResp) : Option String :=
  if key = "" then none
  else
    match resp with
    | .ok status (some (p, _)) =>
      if status = 200 then some (hunter_to_pattern_robust p) else none
    | .ok _ none => none
    | .exn => none

/-- `get_verified_email_pattern` (robust_email_filler.py:261-328): cache →
known table → Hunter → Google (an external search, modelled as an oracle) →
industry hint → default; every resolution is written into `_pattern_cache`
keyed by the lowercased trimmed domain. -/
def normDomain (d : String) : String := String.mk (lowerL (trimL d.data))

def get_verified_email_pattern_robust (cache : List (String × String))
    (company domainRaw : String) (hunterKey : String) (hunterResp : HunterResp)
    (googlePat : Option String) : String × List (String × String) :=
  match cache.lookup (normDomain domainRaw) with
  | some p => (p, cache)
  | none =>
    match known_patterns_robust.lookup (normDomain domainRaw) with
    | some p => (p, (normDomain domainRaw, p) :: cache)
    | none =>
      match gvp_robust_hunter hunterKey hunterResp with
      | some p => (p, (normDomain domainRaw, p) :: cache)
      | none =>
        match googlePat with
        | some p => (p, (normDomain domainRaw, p) :: cache)
        | none =>
          match industry_pattern_hints (get_industry_from_company company) with
          | some (p :: _) => (p, (normDomain domainRaw, p) :: cache)
          | some [] => ("first.last", (normDomain domainRaw, "first.last") :: cache)
          | none => ("first.last", (normDomain domainRaw, "first.last") :: cache)

/-- The missing/one-letter last-name rewriting of `generate_email_with_pattern`
(robust_email_filler.py:339-344): initial-based patterns fall back to `first`
and `first.last` substitutes the `user` sentinel. -/
def gen_email_pattern_subst (pattern last : String) : String × String :=
  if last = "" ∨ last.length ≤ 1 then
    if pattern ∈ (["firstl", "f.last", "last.first", "l.first"] : List String) then
      ("first", last)
    else if pattern = "first.last" then (pattern, "user")
    else (pattern, last)
  else (pattern, last)

/-- `generate_email_with_pattern` (robust_email_filler.py:330-356): clean the
names; no first name or no domain yields `None`; an unknown pattern yields
`None`. -/
def generate_email_with_pattern (first_name last_name domainArg pattern : String) :
    Option String :=
  if clean_name_robust first_name = "" ∨ domainArg = "" then none
  else
    match pattern_funcs_robust
        (gen_email_pattern_subst pattern (clean_name_robust last_name)).1 with
    | some f =>
      some (f (clean_name_robust first_name)
        (gen_email_pattern_subst pattern (clean_name_robust last_name)).2 ++
        "@" ++ domainArg)
    | none => none

/-- The ordered pattern list of `generate_and_verify_email_robust`
(robust_email_filler.py:364-378): detected pattern, industry alternatives,
then common fallbacks, deduplicated in order. -/
def patterns_to_try (detected company : String) : List String :=
  let base := [detected]
  let withInd :=
    match industry_pattern_hints (get_industry_from_company company) with
    | some hints => hints.foldl (fun acc p => if p ∈ acc then acc else acc ++ [p]) base
    | none => base
  (["first.last", "f.last", "firstlast", "first_last", "firstl", "first"]).foldl
    (fun acc p => if p ∈ acc then acc else acc ++ [p]) withInd

/-- The candidate loop of `generate_and_verify_email_robust`
(robust_email_filler.py:384-407): first verified candidate wins; otherwise
the FIRST generated candidate is remembered as the fallback. -/
def gve_loop (verify : String → Bool) (first last domainArg : String) :
    Option (String × String) → List String →
      Option (String × String) × Option (String × String)
  | best, [] => (none, best)
  | best, p :: ps =>
    match generate_email_with_pattern first last domainArg p with
    | none => gve_loop verify first last domainArg best ps
    | some e =>
      if verify e then (some (e, p), best)
      else
        match best with
        | none => gve_loop verify first last domainArg (some (e, p)) ps
        | some b => gve_loop verify first last domainArg (some b) ps

/-- `generate_and_verify_email_robust` (robust_email_filler.py:358-413):
resolve the domain's pattern, try candidates in order; a VERIFIED hit also
OVERWRITES `_pattern_cache[domain]` with the winning pattern (line 398);
otherwise the first generated candidate is returned unverified; with no
generable candidate the result is `None`.  Result:
`(email?, verified, pattern, cache)`. -/
def generate_and_verify_email_robust (cache : List (String × String))
    (first last company domainRaw : String) (hunterKey : String)
    (hunterResp : HunterResp) (googlePat : Option String)
    (verify : String → Bool) :
    Option String × Bool × String × List (String × String) :=
  match gve_loop verify first last domainRaw none
      (patterns_to_try (get_verified_email_pattern_robust cache company domainRaw
        hunterKey hunterResp googlePat).1 company) with
  | (some (e, p), _) =>
    (some e, true, p, (domainRaw, p) :: (get_verified_email_pattern_robust cache
      company domainRaw hunterKey hunterResp googlePat).2)
  | (none, some (e, p)) =>
    (some e, false, p, (get_verified_email_pattern_robust cache company domainRaw
      hunterKey hunterResp googlePat).2)
  | (none, none) =>
    (none, false, (get_verified_email_pattern_robust cache company domainRaw
        hunterKey hunterResp googlePat).1,
      (get_verified_email_pattern_robust cache company domainRaw hunterKey
        hunterResp googlePat).2)

/-- The cache key of the second `get_verified_email_pattern` of
email_pattern_filler.py (line 923): `f"{domain}_{company_name}"` — the
record is keyed by domain AND company, not by the domain alone. -/
def gvp_v2_cache_key (domain company : String) : String :=
  domain ++ "_" ++ company

/-- Strings with equal data are equal. -/
theorem str_ext {a b : String} (h : a.data = b.data) : a = b := by
  cases a with
  | mk d1 =>
    cases b with
    | mk d2 =>
      have h2 : d1 = d2 := h
      rw [h2]

set_option maxHeartbeats 1600000 in
/-- Claim C4 counterexample: on a fresh domain `acme.test` the inference step
resolves the default `first.last` and caches it, but the first contact's
verification succeeds on the `f.last` candidate and OVERWRITES the domain's
cache record; the second contact sharing the domain therefore resolves
`f.last`, not the pattern the first contact's inference step resolved. -/
theorem C4_counterexample :
    (get_verified_email_pattern_robust [] "Foo" "acme.test" "" .exn none).1 =
      "first.last" ∧
    (generate_and_verify_email_robust [] "John" "Smith" "Foo" "acme.test" ""
        .exn none (fun e => e == "j.smith@acme.test")).2.1 = true ∧
    (generate_and_verify_email_robust [] "John" "Smith" "Foo" "acme.test" ""
        .exn none (fun e => e == "j.smith@acme.test")).2.2.1 = "f.last" ∧
    (get_verified_email_pattern_robust
        (generate_and_verify_email_robust [] "John" "Smith" "Foo" "acme.test" ""
          .exn none (fun e => e == "j.smith@acme.test")).2.2.2
        "Bar" "acme.test" "" .exn none).1 = "f.last" ∧
    ("f.last" : String) ≠ "first.last" := by
  refine ⟨by decide, by decide, by decide, by decide, by decide⟩

/-- Claim C4 (amended): in the robust variant the pattern cache is keyed by
the (lowercased) domain alone and a cache hit returns the recorded pattern
without touching the cache, so the inference step creates the record at most
once per run; but the record IS overwritten by the verification loop: whenever
a candidate verifies, the winning pattern is written over the domain's entry,
so later contacts resolve the most recently verified pattern rather than the
first contact's inferred one.  (The email_pattern_filler variant does not even
key by domain alone: its cache key appends the company name.) -/
theorem C4_amended (cache : List (String × String))
    (company domainRaw hunterKey : String) (hunterResp : HunterResp)
    (googlePat : Option String) (first last : String) (verify : String → Bool) :
    (∀ p, cache.lookup (normDomain domainRaw) = some p →
      get_verified_email_pattern_robust cache company domainRaw hunterKey
        hunterResp googlePat = (p, cache)) ∧
    ((generate_and_verify_email_robust cache first last company domainRaw
        hunterKey hunterResp googlePat verify).2.1 = true →
      ((generate_and_verify_email_robust cache first last company domainRaw
          hunterKey hunterResp googlePat verify).2.2.2).lookup domainRaw =
        some (generate_and_verify_email_robust cache first last company domainRaw
          hunterKey hunterResp googlePat verify).2.2.1) ∧
    (∀ d c1 c2 : String, c1 ≠ c2 → gvp_v2_cache_key d c1 ≠ gvp_v2_cache_key d c2) := by
  refine ⟨?_, ?_, ?_⟩
  · intro p hp
    unfold get_verified_email_pattern_robust
    rw [hp]
  · intro hv
    unfold generate_and_verify_email_robust at hv ⊢
    rcases hloop : gve_loop verify first last domainRaw none
        (patterns_to_try (get_verified_email_pattern_robust cache company domainRaw
          hunterKey hunterResp googlePat).1 company) with ⟨ov, ob⟩
    rw [hloop] at hv
    cases ov with
    | some ep =>
      rcases ep with ⟨e, p⟩
      simp [List.lookup]
    | none =>
      cases ob with
      | some ep =>
        rcases ep with ⟨e, p⟩
        simp at hv
      | none => simp at hv
  · intro d c1 c2 hne he
    apply hne
    apply str_ext
    have hd := congrArg String.data he
    unfold gvp_v2_cache_key at hd
    rw [String.data_append, String.data_append, String.data_append,
      String.data_append] at hd
    exact List.append_cancel_left hd

/-- Claim C4 witness: a cache hit for `acme.test` returns the recorded
pattern and leaves the cache unchanged. -/
theorem C4_amended_witness :
    get_verified_email_pattern_robust [("acme.test", "f.last")] "Foo" "acme.test"
      "" .exn none = ("f.last", [("acme.test", "f.last")]) :=
  (C4_amended [("acme.test", "f.last")] "Foo" "acme.test" "" .exn none
    "John" "Smith" (fun _ => false)).1 "f.last" (by decide)

/-! ## The `gen` closure of `fill_emails` (email_pattern_filler.py:1472-1724):
claim C5.  External calls — SignalHire, the web pattern fallback and
NeverBounce verification — are modelled as oracle parameters; `gen` returns
`none` for an uncaught exception (an unknown primary pattern key), which is
unreachable for catalog-valued pattern maps. -/

/-- The class `[A-Za-z0-9._%+-]` of `EMAIL_RE`'s local part. -/
def isLocalChar (c : Char) : Bool :=
  isAlphaC c || isDigitC c || c == '.' || c == '_' || c == '%' || c == '+' || c == '-'

/-- The class `[A-Za-z0-9.-]` of `EMAIL_RE`'s domain part. -/
def isDomainChar (c : Char) : Bool :=
  isAlphaC c || isDigitC c || c == '.' || c == '-'

/-- `EMAIL_RE` (email_pattern_filler.py:336):
`^[A-Za-z0-9._%+-]+@[A-Za-z0-9.-]+\.[A-Za-z]{2,}$`.  The local class excludes
`@`, so the first `@` splits; the `[A-Za-z]{2,}$` tail forces the split at
the last dot of the domain part. -/
def emailRe (s : String) : Bool :=
  let l := s.data
  let localPart := l.takeWhile (fun c => !(c == '@'))
  match l.drop localPart.length with
  | '@' :: d =>
    let tld := (d.reverse.takeWhile (fun c => !(c == '.'))).reverse
    !localPart.isEmpty && localPart.all isLocalChar &&
      d.all isDomainChar && d.contains '.' &&
      decide (2 ≤ tld.length) && decide (tld.length + 2 ≤ d.length) &&
      tld.all isAlphaC
  | _ => false

/-- Does `re.search(r"no\s*email", s, re.I)` match at this position? -/
def noEmailAt (l : List Char) : Bool :=
  startsWithCI "no".data l &&
    startsWithCI "email".data ((l.drop 2).dropWhile (fun c => isWs c))

/-- Fueled scan for the placeholder search. -/
def hasNoEmailGo : Nat → List Char → Bool
  | 0, _ => false
  | _ + 1, [] => false
  | fuel + 1, c :: rest => noEmailAt (c :: rest) || hasNoEmailGo fuel rest

/-- `placeholder_re.search` (email_pattern_filler.py:1475): `no\s*email`
anywhere, case-insensitively. -/
def hasNoEmail (l : List Char) : Bool := hasNoEmailGo (l.length + 1) l

/-- `emoji_prefix_re.sub("", s)` (email_pattern_filler.py:1476,1649):
`^[^a-zA-Z0-9]+\s*` — drop the leading run of non-alphanumerics (which
already swallows any whitespace the `\s*` would take). -/
def stripEmojiHead (l : List Char) : List Char :=
  l.dropWhile (fun c => !(isAlphaC c || isDigitC c))

/-- Case-insensitive scheme removal (`re.sub(r"https?://", "", val, flags=I)`
on a not-yet-lowercased value). -/
def removeSchemesCIGo : Nat → List Char → List Char
  | 0, l => l
  | _ + 1, [] => []
  | fuel + 1, c :: rest =>
    if startsWithCI "https://".data (c :: rest) then
      removeSchemesCIGo fuel ((c :: rest).drop 8)
    else if startsWithCI "http://".data (c :: rest) then
      removeSchemesCIGo fuel ((c :: rest).drop 7)
    else c :: removeSchemesCIGo fuel rest

/-- Remove every scheme occurrence, case-insensitively. -/
def removeSchemesCI (l : List Char) : List Char := removeSchemesCIGo l.length l

/-- One anchored case-insensitive `www.` strip plus following whitespace. -/
def stripWwwCI (l : List Char) : List Char :=
  if startsWithCI "www.".data l then (l.drop 4).dropWhile (fun c => isWs c) else l

/-- The `clean_domain` defined inside `gen` (email_pattern_filler.py:1614-1625):
like the `infer_domains` one but lowercasing only at the end and with NO
length/dot-count rejection. -/
def clean_domain_gen (valRaw : String) : String :=
  let v0 := trimL valRaw.data
  if v0 = [] then ""
  else
    let v1 := removeSchemesCI v0
    let v2 := stripWwwCI v1
    let v3 := trimL (takeUntilL '/' v2)
    let v4 := lowerL (stripSetL ['.', ' '] v3)
    let v5 := removeCharL ' ' v4
    if domainReL v5 then String.mk v5 else ""

/-- `re.sub(r'(inc|llc|corp|corporation|company|co|ltd|limited)$', '', s)`:
the leftmost anchored match is the longest alternative that is a suffix. -/
def stripCompanySuffix (l : List Char) : List Char :=
  if endsWithL "corporation".data l then l.take (l.length - 11)
  else if endsWithL "limited".data l then l.take (l.length - 7)
  else if endsWithL "company".data l then l.take (l.length - 7)
  else if endsWithL "corp".data l then l.take (l.length - 4)
  else if endsWithL "ltd".data l then l.take (l.length - 3)
  else if endsWithL "inc".data l then l.take (l.length - 3)
  else if endsWithL "llc".data l then l.take (l.length - 3)
  else if endsWithL "co".data l then l.take (l.length - 2)
  else l

/-- The company-name domain inference inside `gen`
(email_pattern_filler.py:1630-1639): keep alphanumerics/whitespace, strip,
lowercase, delete whitespace, strip a trailing company-form suffix. -/
def company_to_domain (company : String) : String :=
  let c1 := trimL (company.data.filter (fun c => isAlphaC c || isDigitC c || isWs c))
  let c2 := lowerL c1
  let c3 := c2.filter (fun c => !(isWs c))
  String.mk (stripCompanySuffix c3)

/-- The domain fallback chain of `gen` (email_pattern_filler.py:1627-1643):
cleaned domain field, else `<company>.com`, else the generic `company.com`. -/
def resolve_domain_gen (domainField company : String) : String :=
  let dc := clean_domain_gen domainField
  if dc ≠ "" then dc
  else
    let dc2 :=
      if company ≠ "" then
        (if company_to_domain company ≠ "" then company_to_domain company ++ ".com"
         else "")
      else ""
    if dc2 ≠ "" then dc2 else "company.com"

/-- `PATTERN_FUNCS.keys()` in source order (email_pattern_filler.py:323-334). -/
def pattern_funcs_keys : List String :=
  ["first.last", "f.last", "firstl", "first_last", "firstlast", "f_last",
   "flast", "lastf", "last", "first"]

/-- The fallback pattern loop of `gen` (email_pattern_filler.py:1702-1708):
try every remaining catalog pattern, returning the first that renders a
regex-valid address the verifier accepts. -/
def try_gen_loop (verify : String → Bool) (fn ln domainArg phone : String) :
    List String → Option (String × String × String)
  | [] => none
  | p :: ps =>
    match pattern_func p with
    | none => none
    | some f =>
      if emailRe (f fn ln ++ "@" ++ domainArg) ∧ verify (f fn ln ++ "@" ++ domainArg)
      then some (f fn ln ++ "@" ++ domainArg, "pattern_valid", phone)
      else try_gen_loop verify fn ln domainArg phone ps

/-- After the fallback loop (email_pattern_filler.py:1710-1724): a loop hit is
returned as-is; otherwise the best pattern's candidate is returned tagged
`unverified` when it passes the regex, falling to `first.last` and finally to
the emergency concatenation. -/
def gen_tail_after (fbest : String → String → String)
    (fn ln domain_clean phone : String)
    (loopRes : Option (String × String × String)) :
    Option (String × String × String) :=
  match loopRes with
  | some r => some r
  | none =>
    if emailRe (fbest fn ln ++ "@" ++ domain_clean) then
      some (fbest fn ln ++ "@" ++ domain_clean, "unverified", phone)
    else if emailRe (fn ++ "." ++ ln ++ "@" ++ domain_clean) then
      some (fn ++ "." ++ ln ++ "@" ++ domain_clean, "fallback", phone)
    else some (fn ++ ln ++ "@" ++ domain_clean, "emergency_fallback", phone)

/-- The tail of `gen` (email_pattern_filler.py:1691-1724): best known pattern
first, then every other catalog pattern; with nothing verified the best
pattern's candidate is emitted tagged `unverified`.  `none` models the
uncaught `KeyError` of an unknown primary pattern. -/
def gen_tail (patternsByDomain : List (String × String))
    (fn ln domain_clean phone : String) (verify : String → Bool) :
    Option (String × String × String) :=
  match pattern_func ((patternsByDomain.lookup domain_clean).getD "first.last") with
  | none => none
  | some fbest =>
    if emailRe (fbest fn ln ++ "@" ++ domain_clean) ∧
        verify (fbest fn ln ++ "@" ++ domain_clean) then
      some (fbest fn ln ++ "@" ++ domain_clean, "pattern_valid", phone)
    else
      gen_tail_after fbest fn ln domain_clean phone
        (try_gen_loop verify fn ln domain_clean phone
          (pattern_funcs_keys.filter
            (fun p => !(p == (patternsByDomain.lookup domain_clean).getD "first.last"))))

/-- Outcome of the SignalHire lookup: a returned record (possibly without an
email) or a raised exception. -/
inductive SHOutcome where
  | ok (email : Option String) (phone : String)
  | raised
deriving Repr, DecidableEq

/-- The SignalHire / web-fallback stage of `gen`
(email_pattern_filler.py:1659-1689), followed by the pattern tail. -/
def gen_sh (patternsByDomain : List (String × String))
    (fn ln domain_clean : String) (sh : SHOutcome)
    (webFallback : Option ((String → String → String) × String))
    (verify : String → Bool) : Option (String × String × String) :=
  match sh with
  | .ok emailOpt phone =>
    if fn ≠ "" ∧ ln ≠ "" ∧ domain_clean ≠ "" then
      match emailOpt with
      | some e =>
        if emailRe e ∧ verify e then some (e, "signalhire_valid", phone)
        else gen_tail patternsByDomain fn ln domain_clean phone verify
      | none => gen_tail patternsByDomain fn ln domain_clean phone verify
    else gen_tail patternsByDomain fn ln domain_clean "" verify
  | .raised =>
    match webFallback with
    | some (pf, webDomain) =>
      if webDomain ≠ "" then
        (if emailRe (pf fn ln ++ "@" ++ webDomain) ∧ verify (pf fn ln ++ "@" ++ webDomain)
         then some (pf fn ln ++ "@" ++ webDomain, "web_pattern_valid", "")
         else gen_tail patternsByDomain fn ln domain_clean "" verify)
      else gen_tail patternsByDomain fn ln domain_clean "" verify
    | none => gen_tail patternsByDomain fn ln domain_clean "" verify

/-- The existing-email screening of `gen` (email_pattern_filler.py:1648-1650):
non-blank, no `no email` placeholder, emoji prefix stripped, and regex-valid. -/
def existing_candidate (existingRaw : Option String) : Option String :=
  match existingRaw with
  | none => none
  | some raw =>
    if trimL raw.data ≠ [] ∧ hasNoEmail raw.data = false then
      (if emailRe (String.mk (trimL (stripEmojiHead raw.data))) then
        some (String.mk (trimL (stripEmojiHead raw.data)))
      else none)
    else none

/-- `gen` (email_pattern_filler.py:1472-1724) from the `missing_name` check
onward; `fnRaw`/`lnRaw` are the normalized-and-enhanced name values at line
1509.  (The `correct_email` computed at line 1645 is discarded by the source
and has no observable effect in a pure embedding.) -/
def gen (patternsByDomain : List (String × String)) (existingRaw : Option String)
    (phoneField domainField fnRaw lnRaw company : String) (sh : SHOutcome)
    (webFallback : Option ((String → String → String) × String))
    (verify : String → Bool) : Option (String × String × String) :=
  if fnRaw = "" then some ("", "missing_name", "")
  else
    match existing_candidate existingRaw with
    | some ce =>
      if verify ce then some (ce, "given_valid", phoneField)
      else
        gen_sh patternsByDomain fnRaw (if lnRaw = "" then "user" else lnRaw)
          (resolve_domain_gen domainField company) sh webFallback verify
    | none =>
      gen_sh patternsByDomain fnRaw (if lnRaw = "" then "user" else lnRaw)
        (resolve_domain_gen domainField company) sh webFallback verify

/-! ### Lemmas for claim C5 -/

/-- A regex-valid email address is non-empty. -/
theorem emailRe_ne_empty {e : String} (h : emailRe e = true) : e ≠ "" := by
  intro he
  subst he
  exact absurd h (by decide)

/-- Every hit of the fallback pattern loop is a regex-valid address tagged
`pattern_valid`. -/
theorem try_gen_loop_spec {verify : String → Bool} {fn ln domainArg phone : String} :
    ∀ {ps : List String} {e st ph : String},
      try_gen_loop verify fn ln domainArg phone ps = some (e, st, ph) →
      emailRe e = true ∧ st = "pattern_valid" := by
  intro ps
  induction ps with
  | nil =>
    intro e st ph h
    exact absurd h (by simp [try_gen_loop])
  | cons p t ih =>
    intro e st ph h
    unfold try_gen_loop at h
    cases hpf : pattern_func p with
    | none =>
      simp only [hpf] at h
      exact Option.noConfusion h
    | some f =>
      simp only [hpf] at h
      by_cases hc : emailRe (f fn ln ++ "@" ++ domainArg) ∧
          verify (f fn ln ++ "@" ++ domainArg)
      · rw [if_pos hc] at h
        simp only [Option.some.injEq, Prod.mk.injEq] at h
        obtain ⟨he, hst, _⟩ := h
        rw [← he, ← hst]
        exact ⟨hc.1, rfl⟩
      · rw [if_neg hc] at h
        exact ih h

/-- `gen_tail_after` always produces a record with a non-empty email, given a
non-empty first name and loop hits that are regex-valid. -/
theorem gen_tail_after_ne_empty (fbest : String → String → String)
    (fn ln dc phone : String) (loopRes : Option (String × String × String))
    (hfn : fn ≠ "")
    (hloop : ∀ e st ph, loopRes = some (e, st, ph) → emailRe e = true) :
    ∃ e st ph, gen_tail_after fbest fn ln dc phone loopRes = some (e, st, ph) ∧
      e ≠ "" := by
  cases loopRes with
  | some r =>
    rcases r with ⟨e, st, ph⟩
    exact ⟨e, st, ph, rfl, emailRe_ne_empty (hloop e st ph rfl)⟩
  | none =>
    simp only [gen_tail_after]
    by_cases h2 : emailRe (fbest fn ln ++ "@" ++ dc)
    · rw [if_pos h2]
      exact ⟨_, _, _, rfl, emailRe_ne_empty h2⟩
    · rw [if_neg h2]
      by_cases h3 : emailRe (fn ++ "." ++ ln ++ "@" ++ dc)
      · rw [if_pos h3]
        exact ⟨_, _, _, rfl, emailRe_ne_empty h3⟩
      · rw [if_neg h3]
        exact ⟨_, _, _, rfl,
          strAppend_ne_empty_left _ (strAppend_ne_empty_left _
            (strAppend_ne_empty_left _ hfn))⟩

/-- An `unverified` outcome of `gen_tail_after` is exactly the best pattern's
candidate. -/
theorem gen_tail_after_unverified (fbest : String → String → String)
    (fn ln dc phone : String) (loopRes : Option (String × String × String))
    (hloop : ∀ e st ph, loopRes = some (e, st, ph) → st = "pattern_valid")
    {e ph' : String}
    (h : gen_tail_after fbest fn ln dc phone loopRes = some (e, "unverified", ph')) :
    e = fbest fn ln ++ "@" ++ dc := by
  cases loopRes with
  | some r =>
    rcases r with ⟨e0, st0, ph0⟩
    have hst := hloop e0 st0 ph0 rfl
    have h2 : some (e0, st0, ph0) = some (e, "unverified", ph') := h
    simp only [Option.some.injEq, Prod.mk.injEq] at h2
    rw [hst] at h2
    exact absurd h2.2.1 (by decide)
  | none =>
    simp only [gen_tail_after] at h
    by_cases h2 : emailRe (fbest fn ln ++ "@" ++ dc)
    · rw [if_pos h2] at h
      simp only [Option.some.injEq, Prod.mk.injEq] at h
      exact h.1.symm
    · rw [if_neg h2] at h
      by_cases h3 : emailRe (fn ++ "." ++ ln ++ "@" ++ dc)
      · rw [if_pos h3] at h
        simp only [Option.some.injEq, Prod.mk.injEq] at h
        exact absurd h.2.1 (by decide)
      · rw [if_neg h3] at h
        simp only [Option.some.injEq, Prod.mk.injEq] at h
        exact absurd h.2.1 (by decide)

/-- `gen_tail` produces a record with a non-empty email. -/
theorem gen_tail_ne_empty (patternsByDomain : List (String × String))
    (fn ln dc phone : String) (verify : String → Bool) (hfn : fn ≠ "")
    {f : String → String → String}
    (hbest : pattern_func ((patternsByDomain.lookup dc).getD "first.last") = some f) :
    ∃ e st ph, gen_tail patternsByDomain fn ln dc phone verify = some (e, st, ph) ∧
      e ≠ "" := by
  unfold gen_tail
  simp only [hbest]
  by_cases h1 : emailRe (f fn ln ++ "@" ++ dc) ∧ verify (f fn ln ++ "@" ++ dc)
  · rw [if_pos h1]
    exact ⟨_, _, _, rfl, emailRe_ne_empty h1.1⟩
  · rw [if_neg h1]
    exact gen_tail_after_ne_empty f fn ln dc phone _ hfn
      (fun e st ph h => (try_gen_loop_spec h).1)

/-- An `unverified` outcome of `gen_tail` is the best pattern's candidate —
the first candidate of `gen`'s own loop. -/
theorem gen_tail_unverified (patternsByDomain : List (String × String))
    (fn ln dc phone : String) (verify : String → Bool)
    {f : String → String → String}
    (hbest : pattern_func ((patternsByDomain.lookup dc).getD "first.last") = some f)
    {e ph' : String}
    (h : gen_tail patternsByDomain fn ln dc phone verify = some (e, "unverified", ph')) :
    e = f fn ln ++ "@" ++ dc := by
  unfold gen_tail at h
  simp only [hbest] at h
  by_cases h1 : emailRe (f fn ln ++ "@" ++ dc) ∧ verify (f fn ln ++ "@" ++ dc)
  · rw [if_pos h1] at h
    simp only [Option.some.injEq, Prod.mk.injEq] at h
    exact absurd h.2.1 (by decide)
  · rw [if_neg h1] at h
    exact gen_tail_after_unverified f fn ln dc phone _
      (fun e0 st0 ph0 h0 => (try_gen_loop_spec h0).2) h

/-- `gen_sh` produces a record with a non-empty email. -/
theorem gen_sh_ne_empty (patternsByDomain : List (String × String))
    (fn ln dc : String) (sh : SHOutcome)
    (webFallback : Option ((String → String → String) × String))
    (verify : String → Bool) (hfn : fn ≠ "")
    {f : String → String → String}
    (hbest : pattern_func ((patternsByDomain.lookup dc).getD "first.last") = some f) :
    ∃ e st ph, gen_sh patternsByDomain fn ln dc sh webFallback verify =
      some (e, st, ph) ∧ e ≠ "" := by
  cases sh with
  | ok emailOpt phone =>
    cases emailOpt with
    | some e0 =>
      simp only [gen_sh]
      by_cases hg : fn ≠ "" ∧ ln ≠ "" ∧ dc ≠ ""
      · rw [if_pos hg]
        by_cases hv : emailRe e0 ∧ verify e0
        · rw [if_pos hv]
          exact ⟨_, _, _, rfl, emailRe_ne_empty hv.1⟩
        · rw [if_neg hv]
          exact gen_tail_ne_empty patternsByDomain fn ln dc phone verify hfn hbest
      · rw [if_neg hg]
        exact gen_tail_ne_empty patternsByDomain fn ln dc "" verify hfn hbest
    | none =>
      simp only [gen_sh]
      by_cases hg : fn ≠ "" ∧ ln ≠ "" ∧ dc ≠ ""
      · rw [if_pos hg]
        exact gen_tail_ne_empty patternsByDomain fn ln dc phone verify hfn hbest
      · rw [if_neg hg]
        exact gen_tail_ne_empty patternsByDomain fn ln dc "" verify hfn hbest
  | raised =>
    cases webFallback with
    | some pfd =>
      rcases pfd with ⟨pf, wd⟩
      simp only [gen_sh]
      by_cases hw : wd ≠ ""
      · rw [if_pos hw]
        by_cases hv : emailRe (pf fn ln ++ "@" ++ wd) ∧ verify (pf fn ln ++ "@" ++ wd)
        · rw [if_pos hv]
          exact ⟨_, _, _, rfl, emailRe_ne_empty hv.1⟩
        · rw [if_neg hv]
          exact gen_tail_ne_empty patternsByDomain fn ln dc "" verify hfn hbest
      · rw [if_neg hw]
        exact gen_tail_ne_empty patternsByDomain fn ln dc "" verify hfn hbest
    | none => exact gen_tail_ne_empty patternsByDomain fn ln dc "" verify hfn hbest

/-- An `unverified` outcome of `gen_sh` is the best pattern's candidate. -/
theorem gen_sh_unverified (patternsByDomain : List (String × String))
    (fn ln dc : String) (sh : SHOutcome)
    (webFallback : Option ((String → String → String) × String))
    (verify : String → Bool)
    {f : String → String → String}
    (hbest : pattern_func ((patternsByDomain.lookup dc).getD "first.last") = some f)
    {e ph' : String}
    (h : gen_sh patternsByDomain fn ln dc sh webFallback verify =
      some (e, "unverified", ph')) :
    e = f fn ln ++ "@" ++ dc := by
  cases sh with
  | ok emailOpt phone =>
    cases emailOpt with
    | some e0 =>
      simp only [gen_sh] at h
      by_cases hg : fn ≠ "" ∧ ln ≠ "" ∧ dc ≠ ""
      · rw [if_pos hg] at h
        by_cases hv : emailRe e0 ∧ verify e0
        · rw [if_pos hv] at h
          simp only [Option.some.injEq, Prod.mk.injEq] at h
          exact absurd h.2.1 (by decide)
        · rw [if_neg hv] at h
          exact gen_tail_unverified patternsByDomain fn ln dc phone verify hbest h
      · rw [if_neg hg] at h
        exact gen_tail_unverified patternsByDomain fn ln dc "" verify hbest h
    | none =>
      simp only [gen_sh] at h
      by_cases hg : fn ≠ "" ∧ ln ≠ "" ∧ dc ≠ ""
      · rw [if_pos hg] at h
        exact gen_tail_unverified patternsByDomain fn ln dc phone verify hbest h
      · rw [if_neg hg] at h
        exact gen_tail_unverified patternsByDomain fn ln dc "" verify hbest h
  | raised =>
    cases webFallback with
    | some pfd =>
      rcases pfd with ⟨pf, wd⟩
      simp only [gen_sh] at h
      by_cases hw : wd ≠ ""
      · rw [if_pos hw] at h
        by_cases hv : emailRe (pf fn ln ++ "@" ++ wd) ∧ verify (pf fn ln ++ "@" ++ wd)
        · rw [if_pos hv] at h
          simp only [Option.some.injEq, Prod.mk.injEq] at h
          exact absurd h.2.1 (by decide)
        · rw [if_neg hv] at h
          exact gen_tail_unverified patternsByDomain fn ln dc "" verify hbest h
      · rw [if_neg hw] at h
        exact gen_tail_unverified patternsByDomain fn ln dc "" verify hbest h
    | none => exact gen_tail_unverified patternsByDomain fn ln dc "" verify hbest h

/-- A screened existing email is regex-valid. -/
theorem existing_candidate_emailRe {existingRaw : Option String} {ce : String}
    (h : existing_candidate existingRaw = some ce) : emailRe ce = true := by
  cases existingRaw with
  | none => simp [existing_candidate] at h
  | some raw =>
    simp only [existing_candidate] at h
    by_cases h1 : trimL raw.data ≠ [] ∧ hasNoEmail raw.data = false
    · rw [if_pos h1] at h
      by_cases h2 : emailRe (String.mk (trimL (stripEmojiHead raw.data)))
      · rw [if_pos h2] at h
        injection h with h3
        rw [← h3]
        exact h2
      · rw [if_neg h2] at h
        exact absurd h (by simp)
    · rw [if_neg h1] at h
      exact absurd h (by simp)

/-! ### Robust-side lemmas for claim C5 -/

/-- The ordered list of generable candidates of the robust loop. -/
def robust_candidates (first last domainArg : String) (ps : List String) :
    List (String × String) :=
  ps.filterMap (fun p =>
    (generate_email_with_pattern first last domainArg p).map (fun e => (e, p)))

/-- When the robust loop verifies nothing, the fallback it reports is the
first generated candidate (or the incoming best). -/
theorem gve_loop_none {verify : String → Bool} {first last domainArg : String} :
    ∀ {ps : List String} {best ob : Option (String × String)},
      gve_loop verify first last domainArg best ps = (none, ob) →
      ob = (match best with
            | some b => some b
            | none => (robust_candidates first last domainArg ps).head?) := by
  intro ps
  induction ps with
  | nil =>
    intro best ob h
    simp only [gve_loop, Prod.mk.injEq] at h
    cases best with
    | some b => simpa [robust_candidates] using h.2.symm
    | none => simpa [robust_candidates] using h.2.symm
  | cons p t ih =>
    intro best ob h
    simp only [gve_loop] at h
    cases hg : generate_email_with_pattern first last domainArg p with
    | none =>
      simp only [hg] at h
      have h2 := ih h
      cases best with
      | some b => exact h2
      | none =>
        rw [h2]
        simp [robust_candidates, List.filterMap_cons, hg]
    | some e =>
      simp only [hg] at h
      by_cases hv : verify e = true
      · rw [if_pos hv] at h
        simp at h
      · rw [if_neg hv] at h
        cases best with
        | none =>
          have h2 : ob = some (e, p) := ih h
          rw [h2]
          simp [robust_candidates, List.filterMap_cons, hg]
        | some b =>
          have h2 : ob = some b := ih h
          exact h2

/-- Membership survives the dedup-append fold. -/
theorem foldAdd_mem :
    ∀ (L acc : List String) (x : String), (x ∈ acc ∨ x ∈ L) →
      x ∈ L.foldl (fun acc p => if p ∈ acc then acc else acc ++ [p]) acc := by
  intro L
  induction L with
  | nil =>
    intro acc x hx
    rcases hx with hx | hx
    · exact hx
    · exact absurd hx (List.not_mem_nil x)
  | cons p t ih =>
    intro acc x hx
    simp only [List.foldl_cons]
    apply ih
    rcases hx with hx | hx
    · left
      by_cases hp : p ∈ acc
      · rwa [if_pos hp]
      · rw [if_neg hp]
        exact List.mem_append_left _ hx
    · rcases List.mem_cons.mp hx with hx | hx
      · left
        by_cases hp : p ∈ acc
        · rw [if_pos hp, hx]
          exact hp
        · rw [if_neg hp, hx]
          exact List.mem_append_right _ (by simp)
      · right
        exact hx

/-- `first.last` is always among the patterns the robust loop tries. -/
theorem mem_patterns_to_try_firstlast (detected company : String) :
    "first.last" ∈ patterns_to_try detected company := by
  unfold patterns_to_try
  exact foldAdd_mem _ _ _ (Or.inr (by simp))

/-- With a usable first name and a domain, the `first.last` candidate is
always generable. -/
theorem generate_firstlast_ne_none (first last domainArg : String)
    (hf : clean_name_robust first ≠ "") (hd : domainArg ≠ "") :
    generate_email_with_pattern first last domainArg "first.last" ≠ none := by
  unfold generate_email_with_pattern
  rw [if_neg (by tauto : ¬(clean_name_robust first = "" ∨ domainArg = ""))]
  have hsub : (gen_email_pattern_subst "first.last" (clean_name_robust last)).1 =
      "first.last" := by
    unfold gen_email_pattern_subst
    by_cases hl : clean_name_robust last = "" ∨ (clean_name_robust last).length ≤ 1
    · rw [if_pos hl, if_neg (by decide), if_pos rfl]
    · rw [if_neg hl]
  rw [hsub]
  simp [pattern_funcs_robust]

set_option maxHeartbeats 1000000 in
/-- Claim C5 counterexample: a contact with a perfectly usable first name but
an empty domain gets NO email at all from the robust pipeline — the outcome
is `None`, not an unverified best guess, although the name survives
normalization. -/
theorem C5_counterexample :
    clean_name_robust "John" ≠ "" ∧
    (generate_and_verify_email_robust [] "John" "Smith" "Acme" "" ""
      .exn none (fun _ => false)).1 = none := by
  exact ⟨by decide, by decide⟩

set_option maxHeartbeats 1600000 in
/-- Claim C5 (amended): in the `gen` variant, an empty normalized first name
yields exactly `("", missing_name, "")`, and a non-empty one always yields a
record with a NON-empty email, with the best pattern's candidate (the first
generated one) emitted tagged `unverified` when nothing verifies.  In the
robust variant the same holds only when the resolved domain is non-empty: a
usable first name with an empty domain yields no email, and when nothing
verifies the emitted email is the first generated candidate with its pattern. -/
theorem C5_amended
    (cache : List (String × String)) (first last company domainRaw hunterKey : String)
    (hunterResp : HunterResp) (googlePat : Option String) (verifyR : String → Bool)
    (pbd : List (String × String)) (existingRaw : Option String)
    (phoneField domainField fnRaw lnRaw companyG : String) (sh : SHOutcome)
    (webFallback : Option ((String → String → String) × String))
    (verifyG : String → Bool) (f : String → String → String) :
    (clean_name_robust first ≠ "" → domainRaw ≠ "" →
      (generate_and_verify_email_robust cache first last company domainRaw
        hunterKey hunterResp googlePat verifyR).1 ≠ none) ∧
    (∀ e, (generate_and_verify_email_robust cache first last company domainRaw
        hunterKey hunterResp googlePat verifyR).1 = some e →
      (generate_and_verify_email_robust cache first last company domainRaw
        hunterKey hunterResp googlePat verifyR).2.1 = false →
      (robust_candidates first last domainRaw
        (patterns_to_try (get_verified_email_pattern_robust cache company domainRaw
          hunterKey hunterResp googlePat).1 company)).head? =
      some (e, (generate_and_verify_email_robust cache first last company domainRaw
        hunterKey hunterResp googlePat verifyR).2.2.1)) ∧
    (gen pbd existingRaw phoneField domainField "" lnRaw companyG sh webFallback
      verifyG = some ("", "missing_name", "")) ∧
    (fnRaw ≠ "" →
      pattern_func ((pbd.lookup (resolve_domain_gen domainField companyG)).getD
        "first.last") = some f →
      ∃ e st ph, gen pbd existingRaw phoneField domainField fnRaw lnRaw companyG sh
        webFallback verifyG = some (e, st, ph) ∧ e ≠ "") ∧
    (fnRaw ≠ "" →
      pattern_func ((pbd.lookup (resolve_domain_gen domainField companyG)).getD
        "first.last") = some f →
      ∀ e ph, gen pbd existingRaw phoneField domainField fnRaw lnRaw companyG sh
          webFallback verifyG = some (e, "unverified", ph) →
        e = f fnRaw (if lnRaw = "" then "user" else lnRaw) ++ "@" ++
          resolve_domain_gen domainField companyG) := by
  refine ⟨?_, ?_, ?_, ?_, ?_⟩
  · intro hfn hd hnone
    unfold generate_and_verify_email_robust at hnone
    rcases hloop : gve_loop verifyR first last domainRaw none
        (patterns_to_try (get_verified_email_pattern_robust cache company domainRaw
          hunterKey hunterResp googlePat).1 company) with ⟨ov, ob⟩
    rw [hloop] at hnone
    cases ov with
    | some ep =>
      rcases ep with ⟨e, p⟩
      simp at hnone
    | none =>
      cases ob with
      | some ep =>
        rcases ep with ⟨e, p⟩
        simp at hnone
      | none =>
        have h2 : (none : Option (String × String)) =
            (robust_candidates first last domainRaw
              (patterns_to_try (get_verified_email_pattern_robust cache company
                domainRaw hunterKey hunterResp googlePat).1 company)).head? :=
          gve_loop_none hloop
        have h3 := List.head?_eq_none_iff.mp h2.symm
        have h4 := List.filterMap_eq_nil_iff.mp h3
        have h5 := h4 "first.last"
          (mem_patterns_to_try_firstlast _ company)
        rw [Option.map_eq_none'] at h5
        exact generate_firstlast_ne_none first last domainRaw hfn hd h5
  · intro e hsome hfalse
    unfold generate_and_verify_email_robust at hsome hfalse ⊢
    rcases hloop : gve_loop verifyR first last domainRaw none
        (patterns_to_try (get_verified_email_pattern_robust cache company domainRaw
          hunterKey hunterResp googlePat).1 company) with ⟨ov, ob⟩
    rw [hloop] at hsome hfalse
    cases ov with
    | some ep =>
      rcases ep with ⟨e0, p0⟩
      simp at hfalse
    | none =>
      cases ob with
      | some ep =>
        rcases ep with ⟨e0, p0⟩
        have h2 : some (e0, p0) =
            (robust_candidates first last domainRaw
              (patterns_to_try (get_verified_email_pattern_robust cache company
                domainRaw hunterKey hunterResp googlePat).1 company)).head? :=
          gve_loop_none hloop
        have h3 : e0 = e := by simpa using hsome
        rw [← h2, h3]
      | none => simp at hsome
  · unfold gen
    rw [if_pos rfl]
  · intro hfn hbest
    cases hex : existing_candidate existingRaw with
    | some ce =>
      unfold gen
      rw [if_neg hfn]
      simp only [hex]
      by_cases hv : verifyG ce = true
      · rw [if_pos hv]
        exact ⟨ce, _, _, rfl, emailRe_ne_empty (existing_candidate_emailRe hex)⟩
      · rw [if_neg hv]
        exact gen_sh_ne_empty pbd fnRaw _ _ sh webFallback verifyG hfn hbest
    | none =>
      unfold gen
      rw [if_neg hfn]
      simp only [hex]
      exact gen_sh_ne_empty pbd fnRaw _ _ sh webFallback verifyG hfn hbest
  · intro hfn hbest e ph h
    unfold gen at h
    rw [if_neg hfn] at h
    cases hex : existing_candidate existingRaw with
    | some ce =>
      simp only [hex] at h
      by_cases hv : verifyG ce = true
      · rw [if_pos hv] at h
        simp only [Option.some.injEq, Prod.mk.injEq] at h
        exact absurd h.2.1 (by decide)
      · rw [if_neg hv] at h
        exact gen_sh_unverified pbd fnRaw _ _ sh webFallback verifyG hbest h
    | none =>
      simp only [hex] at h
      exact gen_sh_unverified pbd fnRaw _ _ sh webFallback verifyG hbest h

set_option maxHeartbeats 1000000 in
/-- Claim C5 witness: with a usable first name and a non-empty domain the
robust pipeline always produces an email, even when every verification fails. -/
theorem C5_amended_witness :
    (generate_and_verify_email_robust [] "John" "Smith" "Acme" "acme.test" ""
      .exn none (fun _ => false)).1 ≠ none :=
  (C5_amended [] "John" "Smith" "Acme" "acme.test" "" .exn none (fun _ => false)
    [] none "" "" "x" "y" "" .raised none (fun _ => false)
    (fun a b => a ++ "." ++ b)).1 (by decide) (by decide)

end EmailEnrich
